import Mathlib

/-!
Verification of the kuha OAI-PMH data provider against its specification.

This file gives a shallow embedding of the parts of the code that the
checked properties talk about:

* `kuha/util.py` — the datestamp codec (`format_datestamp`, `parse_date`);
* `kuha/models.py` — the persistent store (`Format`, `Item`, `Record`,
  `Set`, `Datestamp`) and its operations;
* `kuha/oai/views.py` — the protocol engine for the list verbs and
  resumption-token handling.

Python strings are modelled as `List Char`; Python `datetime.datetime`
values (which the code always truncates to second precision via
`datestamp_now`) as a six-field structure; database rows as structures,
tables as lists of rows; `None` as `Option.none`; raised exceptions as
`Except` errors.  Every operation is translated from the Python source,
statement by statement; where the model of a library primitive makes a
choice, the choice is recorded in the doc comment of the definition.
-/

namespace Kuha

/-- Python strings (`str`/`unicode`) are modelled as lists of characters. -/
abbrev Str := List Char

/-- Helper turning a Lean string literal into the model's string type. -/
def ofStr (s : String) : Str := s.toList

/-- A Python `datetime.datetime` at second precision.  The code only ever
stores datetimes produced by `util.datestamp_now()` (microseconds
stripped) or parsed by `util.parse_date`, so microseconds are omitted. -/
structure DateTime where
  year : Nat
  month : Nat
  day : Nat
  hour : Nat
  minute : Nat
  second : Nat
deriving DecidableEq, Repr

/-- Python `datetime` comparison `a <= b`: lexicographic on the six
components. -/
def DateTime.le (a b : DateTime) : Bool :=
  if a.year ≠ b.year then decide (a.year < b.year)
  else if a.month ≠ b.month then decide (a.month < b.month)
  else if a.day ≠ b.day then decide (a.day < b.day)
  else if a.hour ≠ b.hour then decide (a.hour < b.hour)
  else if a.minute ≠ b.minute then decide (a.minute < b.minute)
  else decide (a.second ≤ b.second)

/-- Gregorian leap-year rule, as implemented by Python's `datetime`. -/
def isLeapYear (y : Nat) : Bool :=
  (y % 4 == 0 && y % 100 != 0) || y % 400 == 0

/-- Number of days of month `m` of year `y`, as validated by the
`datetime.datetime` constructor. -/
def daysInMonth (y m : Nat) : Nat :=
  if m == 2 then (if isLeapYear y then 29 else 28)
  else if m == 4 || m == 6 || m == 9 || m == 11 then 30
  else 31

/-- The values representable as a Python `datetime.datetime` at second
precision: the ranges enforced by the `datetime` constructor
(`MINYEAR = 1`, `MAXYEAR = 9999`). -/
def DateTime.valid (d : DateTime) : Prop :=
  1 ≤ d.year ∧ d.year ≤ 9999 ∧ 1 ≤ d.month ∧ d.month ≤ 12 ∧
  1 ≤ d.day ∧ d.day ≤ daysInMonth d.year d.month ∧
  d.hour ≤ 23 ∧ d.minute ≤ 59 ∧ d.second ≤ 59

instance (d : DateTime) : Decidable d.valid := by
  unfold DateTime.valid; infer_instance

/-- A Python `datetime.time` (used as the `default_time` argument of
`parse_date`). -/
structure Time where
  hour : Nat
  minute : Nat
  second : Nat
deriving DecidableEq, Repr

/-- The granularity marker returned by `parse_date`: the source returns
`timedelta(1)` for day granularity and `timedelta(0, 0, 1)` for second
granularity; only the distinction matters, so we use a two-value type. -/
inductive Granularity where
  | day
  | second
deriving DecidableEq, Repr

/-- Numeric value of an ASCII digit character, `none` for everything
else.  This is what `\d` matches in the (byte-string) regexes used by
Python's `_strptime`. -/
def charDigit? (c : Char) : Option Nat :=
  match c with
  | '9' => some 9
  | '8' => some 8
  | '7' => some 7
  | '6' => some 6
  | '5' => some 5
  | '4' => some 4
  | '3' => some 3
  | '2' => some 2
  | '1' => some 1
  | '0' => some 0
  | _ => none

/-- The ASCII digit character for `n % 10`-like values (`n ≤ 9`). -/
def digitChar : Nat → Char
  | 0 => '0'
  | 1 => '1'
  | 2 => '2'
  | 3 => '3'
  | 4 => '4'
  | 5 => '5'
  | 6 => '6'
  | 7 => '7'
  | 8 => '8'
  | _ => '9'

/-- Two-digit field of a fixed-position datestamp: both positions must
hold digits. -/
def digits2? : Option Char → Option Char → Option Nat
  | some a, some b =>
    match charDigit? a, charDigit? b with
    | some x, some y => some (10 * x + y)
    | _, _ => none
  | _, _ => none

/-- Four-digit field (the year) of a fixed-position datestamp. -/
def digits4? (a b c d : Option Char) : Option Nat :=
  match digits2? a b, digits2? c d with
  | some x, some y => some (100 * x + y)
  | _, _ => none

/-- Zero-padded two-digit rendering, as `strftime` `%m`/`%d`/`%H`/`%M`/`%S`
produce for their in-range arguments. -/
def pad2 (n : Nat) : Str := [digitChar (n / 10 % 10), digitChar (n % 10)]

/-- Four-digit rendering of the year, as `strftime` `%Y` produces for the
years this system emits (the datestamps stored by the code all come from
`datetime.utcnow()`). -/
def pad4 (n : Nat) : Str :=
  [digitChar (n / 1000 % 10), digitChar (n / 100 % 10),
   digitChar (n / 10 % 10), digitChar (n % 10)]

/-- The text produced by the format string `'%Y-%m-%dT%H:%M:%SZ'`, with
the two letter positions parameterized: the parser accepts them in either
case (see `parseSecondShape`), the emitter always writes `'T'`/`'Z'`. -/
def renderWith (d : DateTime) (tc zc : Char) : Str :=
  pad4 d.year ++ ('-' :: (pad2 d.month ++ ('-' :: (pad2 d.day ++
    (tc :: (pad2 d.hour ++ (':' :: (pad2 d.minute ++
      (':' :: (pad2 d.second ++ [zc]))))))))))

/-- The text of an emitted datestamp. -/
def renderDatestamp (d : DateTime) : Str := renderWith d 'T' 'Z'

/-- `util.format_datestamp`: `datestamp.strftime('%Y-%m-%dT%H:%M:%SZ')`.
This repository is Python 2 code (`iteritems`, `basestring`,
`func_code`), and Python 2.7's `datetime.strftime` raises `ValueError`
for any year before 1900; for the remaining years the rendering is the
zero-padded form above. -/
def format_datestamp (d : DateTime) : Except String Str :=
  if d.year < 1900 then
    .error "the datetime strftime() methods require year >= 1900"
  else .ok (renderDatestamp d)

/-- The rendering of the day-granularity shape `YYYY-MM-DD`. -/
def format_day (y mo dy : Nat) : Str :=
  pad4 y ++ ('-' :: (pad2 mo ++ ('-' :: pad2 dy)))

/-- The `len(text) == len('YYYY-MM-DDTHH:MM:SSZ')` branch of
`util.parse_date`: `datetime.strptime(text, '%Y-%m-%dT%H:%M:%SZ')`.
For a 20-character input the `strptime` pattern (`%Y` = 4 digits, the
other fields 1–2 digits, matched against the whole string) forces every
field to its full width, so the separators sit at fixed positions; the
`datetime` constructor then validates the ranges.  `_strptime` compiles
its regex with `IGNORECASE`, so the literal letters `T` and `Z` also
match in lower case (the digit and punctuation positions are unaffected
by the flag). -/
def parseSecondShape (cs : Str) : Except String (DateTime × Granularity) :=
  if cs[4]? = some '-' ∧ cs[7]? = some '-' ∧
     (cs[10]? = some 'T' ∨ cs[10]? = some 't') ∧
     cs[13]? = some ':' ∧ cs[16]? = some ':' ∧
     (cs[19]? = some 'Z' ∨ cs[19]? = some 'z') then
    match digits4? cs[0]? cs[1]? cs[2]? cs[3]?, digits2? cs[5]? cs[6]?,
          digits2? cs[8]? cs[9]?, digits2? cs[11]? cs[12]?,
          digits2? cs[14]? cs[15]?, digits2? cs[17]? cs[18]? with
    | some y, some mo, some dy, some h, some mi, some s =>
      if 1 ≤ y ∧ 1 ≤ mo ∧ mo ≤ 12 ∧ 1 ≤ dy ∧ dy ≤ daysInMonth y mo ∧
         h ≤ 23 ∧ mi ≤ 59 ∧ s ≤ 59 then
        .ok (⟨y, mo, dy, h, mi, s⟩, .second)
      else .error "field out of range"
    | _, _, _, _, _, _ => .error "time data does not match format"
  else .error "time data does not match format"

/-- The `len(text) == len('YYYY-MM-DD')` branch of `util.parse_date`:
`datetime.strptime(text, '%Y-%m-%d')` followed by substituting the hours,
minutes and seconds of `default_time`. -/
def parseDayShape (cs : Str) (default_time : Time) :
    Except String (DateTime × Granularity) :=
  if cs[4]? = some '-' ∧ cs[7]? = some '-' then
    match digits4? cs[0]? cs[1]? cs[2]? cs[3]?, digits2? cs[5]? cs[6]?,
          digits2? cs[8]? cs[9]? with
    | some y, some mo, some dy =>
      if 1 ≤ y ∧ 1 ≤ mo ∧ mo ≤ 12 ∧ 1 ≤ dy ∧ dy ≤ daysInMonth y mo then
        .ok (⟨y, mo, dy, default_time.hour, default_time.minute,
              default_time.second⟩, .day)
      else .error "field out of range"
    | _, _, _ => .error "time data does not match format"
  else .error "time data does not match format"

/-- `util.parse_date`: dispatches on the length of the input; every other
length raises `ValueError('unsupported date format')`. -/
def parse_date (text : Str) (default_time : Time := ⟨0, 0, 0⟩) :
    Except String (DateTime × Granularity) :=
  if text.length = 20 then parseSecondShape text
  else if text.length = 10 then parseDayShape text default_time
  else .error "unsupported date format"

/-- Modelled from the spec's words: the input shape
`YYYY-MM-DDTHH:MM:SSZ` — the second-granularity rendering of some
representable datetime, with the letter positions in either case
(`_strptime` matches them case-insensitively). -/
def SecondShape (cs : Str) : Prop :=
  ∃ (d : DateTime) (tc zc : Char), d.valid ∧
    (tc = 'T' ∨ tc = 't') ∧ (zc = 'Z' ∨ zc = 'z') ∧
    cs = renderWith d tc zc

/-- Modelled from the spec's words: the input shape `YYYY-MM-DD` — the
day-granularity rendering of some representable date. -/
def DayShape (cs : Str) : Prop :=
  ∃ y mo dy : Nat,
    (1 ≤ y ∧ y ≤ 9999 ∧ 1 ≤ mo ∧ mo ≤ 12 ∧ 1 ≤ dy ∧
      dy ≤ daysInMonth y mo) ∧
    cs = format_day y mo dy

/-! ## The store (`kuha/models.py`)

SQLAlchemy tables become lists of row structures; the scoped session and
transaction machinery disappear (each operation maps a store to a store);
`datestamp_now()` becomes an explicit `now` argument.  `query(...).one()`
is modelled by `queryOne`, with both of its failure modes. -/

/-- An already-parsed view of a metadata payload, carrying exactly what
`Record._check_xml` inspects via lxml: whether `etree.fromstring` accepts
the text, the namespace of the root tag, and the whitespace-split tokens
of the `xsi:schemaLocation` attribute (absent attribute = `none`).  The
`raw`/`body` field keeps distinct documents distinct, since records store
and compare the full text. -/
inductive XmlDoc where
  | malformed (raw : Str)
  | doc (ns : Option Str) (schemaLocation : Option (List Str)) (body : Str)
deriving DecidableEq, Repr

/-- Row of the `formats` table.  The `prefix` column is called `pfx`
because `prefix` is a Lean keyword; `namespace` likewise becomes `ns`. -/
structure FormatRow where
  pfx : Str
  ns : Str
  schema : Str
  deleted : Bool
deriving DecidableEq, Repr

/-- Row of the `items` table. -/
structure ItemRow where
  identifier : Str
  deleted : Bool
deriving DecidableEq, Repr

/-- Row of the `sets` table. -/
structure SetRow where
  spec : Str
  name : Str
deriving DecidableEq, Repr

/-- Row of the `records` table. -/
structure RecordRow where
  identifier : Str
  pfx : Str
  datestamp : DateTime
  xml : Option XmlDoc
  deleted : Bool
deriving DecidableEq, Repr

/-- The database.  `links` is the `item_set_association` table, a row
being `(set_spec, item_identifier)`; `datestamp` is the singleton
`datestamp` table (`none` = empty table; `Datestamp.update` dedupes
multiple rows, so a single optional value is the faithful state). -/
structure Store where
  formats : List FormatRow
  items : List ItemRow
  records : List RecordRow
  sets : List SetRow
  links : List (Str × Str)
  datestamp : Option DateTime
deriving DecidableEq, Repr

/-- The two failure modes of SQLAlchemy's `Query.one()`. -/
inductive DBErr where
  | noResultFound
  | multipleResultsFound
deriving DecidableEq, Repr

/-- Errors surfaced by store operations: Python `ValueError` or an
uncaught ORM exception. -/
inductive ModelErr where
  | valueError (msg : String)
  | dbError (e : DBErr)
deriving DecidableEq, Repr

/-- `query.filter(p).one()`. -/
def queryOne {α : Type} (p : α → Bool) (l : List α) : Except DBErr α :=
  match l.filter p with
  | [] => .error .noResultFound
  | [x] => .ok x
  | _ => .error .multipleResultsFound

/-- `Datestamp.get`: the database modification datestamp, `None` if the
table is empty. -/
def Datestamp.get (st : Store) : Option DateTime := st.datestamp

/-- `Datestamp.update`: set the database datestamp to the current time
(creating the row, or deduping multiple rows, as needed). -/
def Datestamp.update (st : Store) (now : DateTime) : Store :=
  { st with datestamp := some now }

/-- `Record._check_xml(xml, format_)`: well-formedness, root namespace
equals the format's namespace, and the `xsi:schemaLocation` tokens
contain the format's schema URL. -/
def _check_xml (xml : XmlDoc) (format_ : FormatRow) : Except String Unit :=
  match xml with
  | .malformed _ => .error "ill-formed xml"
  | .doc ns loc _ =>
    if ns ≠ some format_.ns then .error "wrong xml namespace"
    else
      match loc with
      | none => .error "no schema location"
      | some tokens =>
        if tokens.contains format_.schema then .ok ()
        else .error "wrong schema location"

/-- Characters rejected by `Format._invalid_characters`
(`[^a-zA-Z0-9\-_.!~*'()]`).  `Char.ofNat 39` is the apostrophe. -/
def invalidPrefixChar (c : Char) : Bool :=
  !(c.isAlpha || c.isDigit ||
    c == '-' || c == '_' || c == '.' || c == '!' || c == '~' ||
    c == '*' || c == Char.ofNat 39 || c == '(' || c == ')')

/-- `Format.create` = `Format.__init__` + `DBSession.add`. -/
def Format.create (st : Store) (pfx ns schema : Str) :
    Except ModelErr (Store × FormatRow) :=
  if pfx.any invalidPrefixChar then
    .error (.valueError "invalid metadata prefix")
  else
    let row : FormatRow := ⟨pfx, ns, schema, false⟩
    .ok ({ st with formats := st.formats ++ [row] }, row)

/-- `Format.exists(prefix, ignore_deleted)`: `one()` inside a
`try`/`except NoResultFound`; `MultipleResultsFound` propagates. -/
def Format.exists (st : Store) (pfx : Str) (ignore_deleted : Bool := false) :
    Except DBErr Bool :=
  let q := st.formats.filter (fun f => f.pfx == pfx)
  let q := if ignore_deleted then q.filter (fun f => !f.deleted) else q
  match q with
  | [] => .ok false
  | [_] => .ok true
  | _ => .error .multipleResultsFound

/-- `models.ensure_oai_dc_exists`: create the `oai_dc` format if
`Format.exists('oai_dc')` (deleted rows included!) is false.  The
`commit()` is a transaction boundary and leaves the modelled state
unchanged. -/
def ensure_oai_dc_exists (st : Store) : Except ModelErr Store :=
  match Format.exists st (ofStr "oai_dc") with
  | .error e => .error (.dbError e)
  | .ok true => .ok st
  | .ok false =>
    match Format.create st (ofStr "oai_dc")
        (ofStr "http://www.openarchives.org/OAI/2.0/oai_dc/")
        (ofStr "http://www.openarchives.org/OAI/2.0/oai_dc.xsd") with
    | .error e => .error e
    | .ok (st', _) => .ok st'

/-- `Record.create` = `Record.__init__` + `DBSession.add` +
`Datestamp.update()` (the overridden `create`).  On any exception the
object is never added.  `datestamp` defaults to `datestamp_now()`. -/
def Record.create (st : Store) (now : DateTime) (identifier pfx : Str)
    (xml : Option XmlDoc) (datestamp : Option DateTime := none) :
    Except ModelErr (Store × RecordRow) :=
  match queryOne (fun f => f.pfx == pfx) st.formats with
  | .error .noResultFound => .error (.valueError "non-existent metadata prefix")
  | .error e => .error (.dbError e)
  | .ok format_ =>
    match queryOne (fun i => i.identifier == identifier) st.items with
    | .error .noResultFound => .error (.valueError "non-existent identifier")
    | .error e => .error (.dbError e)
    | .ok _ =>
      let row : RecordRow :=
        ⟨identifier, pfx, datestamp.getD now, xml, false⟩
      match xml with
      | none =>
        .ok (Datestamp.update { st with records := st.records ++ [row] } now, row)
      | some x =>
        match _check_xml x format_ with
        | .error m => .error (.valueError m)
        | .ok _ =>
          .ok (Datestamp.update { st with records := st.records ++ [row] } now, row)

/-- ORM object mutation = replacing the row with the same primary key. -/
def replaceRecord (rs : List RecordRow) (identifier pfx : Str)
    (r' : RecordRow) : List RecordRow :=
  rs.map (fun r => if r.identifier == identifier && r.pfx == pfx then r' else r)

/-- `Record.update(xml)`: no-op unless the record is deleted or the xml
differs; otherwise re-validate the xml, store it, undelete, stamp the
record and bump the global datestamp.  Passing `None` for the xml makes
`etree.fromstring` raise, which surfaces as an error. -/
def Record.update (st : Store) (now : DateTime) (record : RecordRow)
    (xml : Option XmlDoc) : Except ModelErr (Store × RecordRow) :=
  if record.deleted ∨ record.xml ≠ xml then
    match queryOne (fun f => f.pfx == record.pfx) st.formats with
    | .error e => .error (.dbError e)
    | .ok format_ =>
      match (match xml with
             | some x => _check_xml x format_
             | none => .error "cannot parse None") with
      | .error m => .error (.valueError m)
      | .ok _ =>
        let rec' : RecordRow :=
          { record with xml := xml, deleted := false, datestamp := now }
        .ok (Datestamp.update
              { st with records :=
                  replaceRecord st.records record.identifier record.pfx rec' } now,
             rec')
  else .ok (st, record)

/-- `Record.create_or_update(identifier, prefix, xml)`. -/
def Record.create_or_update (st : Store) (now : DateTime)
    (identifier pfx : Str) (xml : Option XmlDoc) :
    Except ModelErr (Store × RecordRow) :=
  match queryOne (fun r => r.identifier == identifier && r.pfx == pfx)
      st.records with
  | .error .noResultFound => Record.create st now identifier pfx xml
  | .error e => .error (.dbError e)
  | .ok record => Record.update st now record xml

/-- `Record.mark_as_deleted(identifier=None, prefix=None)`: one UPDATE
setting `deleted` and `datestamp` on every matching non-deleted row (the
`xml` column is not touched), then `Datestamp.update()` iff at least one
row changed. -/
def Record.mark_as_deleted (st : Store) (now : DateTime)
    (identifier : Option Str := none) (pfx : Option Str := none) : Store :=
  let matchesRow : RecordRow → Bool := fun r =>
    (match identifier with | some i => r.identifier == i | none => true) &&
    (match pfx with | some p => r.pfx == p | none => true) &&
    !r.deleted
  let updated := (st.records.filter matchesRow).length
  let newRecords := st.records.map (fun r =>
    if matchesRow r then { r with deleted := true, datestamp := now } else r)
  let st' := { st with records := newRecords }
  if updated > 0 then Datestamp.update st' now else st'

/-- `Item.mark_as_deleted`: cascade to the item's records, then mark the
item row itself. -/
def Item.mark_as_deleted (st : Store) (now : DateTime) (identifier : Str) :
    Store :=
  let st' := Record.mark_as_deleted st now (some identifier) none
  { st' with items := st'.items.map (fun i =>
      if i.identifier == identifier then { i with deleted := true } else i) }

/-- `Format.mark_as_deleted`: cascade to the format's records, then mark
the format row itself. -/
def Format.mark_as_deleted (st : Store) (now : DateTime) (pfx : Str) :
    Store :=
  let st' := Record.mark_as_deleted st now none (some pfx)
  { st' with formats := st'.formats.map (fun f =>
      if f.pfx == pfx then { f with deleted := true } else f) }

/-- Lexicographic string comparison `a <= b`, as Python unicode and the
database's binary collation order strings. -/
def strLe : Str → Str → Bool
  | a :: as, b :: bs => if a = b then strLe as bs else decide (a < b)
  | [], _ => true
  | _, _ => false

/-- The conjunction of `WHERE` clauses that `Record.list` builds from its
arguments.  The `set_` clause is the `Item` ⋈ `item_set_association` ⋈
`Set` join with `Set.spec == set_`. -/
def recordFilter (st : Store)
    (identifier metadata_pfx : Option Str)
    (from_date until_date : Option DateTime)
    (set_ : Option Str) (ignore_deleted : Bool) (r : RecordRow) : Bool :=
  (match identifier with | some i => r.identifier == i | none => true) &&
  (match metadata_pfx with | some p => r.pfx == p | none => true) &&
  (match from_date with | some d => DateTime.le d r.datestamp | none => true) &&
  (match until_date with | some d => DateTime.le r.datestamp d | none => true) &&
  (!ignore_deleted || !r.deleted) &&
  (match set_ with
   | some s =>
     st.items.any (fun it => it.identifier == r.identifier) &&
     st.links.any (fun l =>
       l.1 == s && l.2 == r.identifier &&
       st.sets.any (fun se => se.spec == l.1))
   | none => true)

/-- The `offset` clause of `Record.list`: `identifier >= offset` when an
offset is given.  It is added after `order_by` in the source but is still
a `WHERE` clause; applying it after the stable sort keeps both the rows
and their order. -/
def offsetFilter (off : Option Str) (l : List RecordRow) : List RecordRow :=
  match off with
  | some o => l.filter (fun r => strLe o r.identifier)
  | none => l

/-- `Record.list(...)`.  The filters become `recordFilter`;
`order_by(identifier)` becomes a stable sort (insertion sort — the model
only relies on sortedness and stability, which any SQL backend provides
for a total order on the key); `limit(n)` truncates, after the
`limit < 0` `ValueError` guard. -/
def Record.list (st : Store)
    (identifier : Option Str := none)
    (metadata_pfx : Option Str := none)
    (from_date : Option DateTime := none)
    (until_date : Option DateTime := none)
    (set_ : Option Str := none)
    (ignore_deleted : Bool := false)
    (offset : Option Str := none)
    (limit : Option Int := none) : Except ModelErr (List RecordRow) :=
  let q := st.records.filter
    (recordFilter st identifier metadata_pfx from_date until_date set_
      ignore_deleted)
  let sorted :=
    q.insertionSort (fun a b => strLe a.identifier b.identifier = true)
  let result := offsetFilter offset sorted
  match limit with
  | some l =>
    if l < 0 then .error (.valueError "negative limit")
    else .ok (result.take l.toNat)
  | none => .ok result

/-! ## `Record.set_specs` (derived set membership of a record) -/

/-- Number of colons in a spec (the sort key, negated, in the source). -/
def colonCount (s : Str) : Nat := s.count ':'

/-- The proper colon-prefix ancestors of a spec: `spec[:i]` for every
position `i` holding a `':'` — exactly the specs the inner
`while True: i = spec.index(':', i)` loop adds to `processed`. -/
def ancestors (s : Str) : List Str :=
  (List.range s.length).filterMap
    (fun i => if s[i]? = some ':' then some (s.take i) else none)

/-- The `for spec in specs` loop of `Record.set_specs`, with the
`processed` set threaded through (membership is all that is used). -/
def setSpecsLoop : List Str → List Str → List Str
  | [], _ => []
  | s :: rest, processed =>
    if s ∈ processed then setSpecsLoop rest processed
    else s :: setSpecsLoop rest (processed ++ ancestors s)

/-- The body of `Record.set_specs` applied to the fetched spec list:
sort to descending order by colon count (Python's stable `list.sort`,
modelled by the equally stable insertion sort), then filter out specs
already covered as ancestors. -/
def set_specs (specs : List Str) : List Str :=
  setSpecsLoop
    (specs.insertionSort (fun a b => colonCount b ≤ colonCount a)) []

/-- The spec-fetching query of `Record.set_specs`:
`query(Set.spec).join(Item.sets).filter(Item.identifier == identifier)`,
i.e. the `Set` ⋈ association ⋈ `Item` join restricted to this item. -/
def linkedSpecs (st : Store) (identifier : Str) : List Str :=
  if st.items.any (fun it => it.identifier == identifier) then
    (st.links.filter (fun l =>
      l.2 == identifier && st.sets.any (fun se => se.spec == l.1))).map
      (fun l => l.1)
  else []

/-- `Record.set_specs` (the property), for the record's identifier. -/
def Record.set_specs (st : Store) (identifier : Str) : List Str :=
  Kuha.set_specs (linkedSpecs st identifier)

/-! ## JSON (the parts of Python's `json` module used by the token codec)

Resumption tokens are `json.dumps`/`json.loads` round trips of a dict.
The parser below is a recursive-descent reading of JSON with an explicit
fuel argument (spending fuel always consumes input, so the fuel passed by
`json_loads` never runs out on inputs the model cares about).  String
escapes are modelled for `\" \\ \/ \n \t \r`; numbers as integers —
fractional numbers, exotic escapes and control-character strictness never
influence any checked property, because every non-string, non-null value
is rejected by the token type check either way. -/

/-- The opening brace character (written via its code point because brace
characters are awkward inside literals). -/
def obrace : Char := Char.ofNat 123

/-- The closing brace character. -/
def cbrace : Char := Char.ofNat 125

inductive Json where
  | null
  | bool (b : Bool)
  | num (n : Int)
  | str (s : Str)
  | arr (elems : List Json)
  | obj (fields : List (Str × Json))

/-- JSON insignificant whitespace. -/
def isJsonWs (c : Char) : Bool :=
  c == '\t' || c == '\n' || c == '\r' || c == ' '

def skipWs : Str → Str
  | [] => []
  | c :: cs => if isJsonWs c then skipWs cs else c :: cs

/-- Parse the remainder of a JSON string literal (the opening quote
already consumed); returns the decoded text and the rest of the input. -/
def parseJStr : Nat → Str → Option (Str × Str)
  | 0, _ => none
  | _, [] => none
  | fuel + 1, c :: cs =>
    if c = '"' then some ([], cs)
    else if c = '\\' then
      match cs with
      | [] => none
      | e :: cs' =>
        let esc? : Option Char :=
          if e = '"' ∨ e = '\\' ∨ e = '/' then some e
          else if e = 'n' then some '\n'
          else if e = 't' then some '\t'
          else if e = 'r' then some '\r'
          else none
        match esc? with
        | none => none
        | some ch =>
          match parseJStr fuel cs' with
          | some (s, rest) => some (ch :: s, rest)
          | none => none
    else
      match parseJStr fuel cs with
      | some (s, rest) => some (c :: s, rest)
      | none => none

/-- Longest prefix of decimal digits. -/
def takeDigits : Str → List Nat × Str
  | [] => ([], [])
  | c :: cs =>
    match charDigit? c with
    | some d =>
      let (ds, rest) := takeDigits cs
      (d :: ds, rest)
    | none => ([], c :: cs)

def digitsToNat (ds : List Nat) : Nat := ds.foldl (fun a d => 10 * a + d) 0

/-- Parse a JSON number (integers suffice for the token codec). -/
def parseJNum : Str → Option (Int × Str)
  | '-' :: rest =>
    match takeDigits rest with
    | ([], _) => none
    | (ds, rest') => some (-(digitsToNat ds : Int), rest')
  | cs =>
    match takeDigits cs with
    | ([], _) => none
    | (ds, rest') => some ((digitsToNat ds : Int), rest')

/-- Python-dict insertion: a duplicate key keeps its first position but
takes the latest value. -/
def upsert (acc : List (Str × Json)) (k : Str) (v : Json) :
    List (Str × Json) :=
  if acc.any (fun kv => kv.1 == k) then
    acc.map (fun kv => if kv.1 == k then (k, v) else kv)
  else acc ++ [(k, v)]

/-- Rebuild an association list with Python-dict duplicate-key
semantics. -/
def dedupeFields (kvs : List (Str × Json)) : List (Str × Json) :=
  kvs.foldl (fun acc kv => upsert acc kv.1 kv.2) []

mutual

/-- Parse one JSON value (after optional whitespace). -/
def parseJVal : Nat → Str → Option (Json × Str)
  | 0, _ => none
  | fuel + 1, cs =>
    match skipWs cs with
    | [] => none
    | c :: rest =>
      if c = 'n' then
        match rest with
        | 'u' :: 'l' :: 'l' :: r => some (.null, r)
        | _ => none
      else if c = 't' then
        match rest with
        | 'r' :: 'u' :: 'e' :: r => some (.bool true, r)
        | _ => none
      else if c = 'f' then
        match rest with
        | 'a' :: 'l' :: 's' :: 'e' :: r => some (.bool false, r)
        | _ => none
      else if c = '"' then
        match parseJStr (rest.length + 1) rest with
        | some (s, r) => some (.str s, r)
        | none => none
      else if c = '[' then
        match skipWs rest with
        | ']' :: r => some (.arr [], r)
        | _ =>
          match parseJArrItems fuel rest with
          | some (xs, r) => some (.arr xs, r)
          | none => none
      else if c = obrace then
        match skipWs rest with
        | [] => none
        | c' :: r' =>
          if c' = cbrace then some (.obj [], r')
          else
            match parseJObjItems fuel rest with
            | some (kvs, r) => some (.obj (dedupeFields kvs), r)
            | none => none
      else
        match parseJNum (c :: rest) with
        | some (n, r) => some (.num n, r)
        | none => none

/-- Parse the comma-separated items of a non-empty array, including the
closing bracket. -/
def parseJArrItems : Nat → Str → Option (List Json × Str)
  | 0, _ => none
  | fuel + 1, cs =>
    match parseJVal fuel cs with
    | none => none
    | some (v, r) =>
      match skipWs r with
      | [] => none
      | c :: r' =>
        if c = ',' then
          match parseJArrItems fuel r' with
          | some (vs, r'') => some (v :: vs, r'')
          | none => none
        else if c = ']' then some ([v], r')
        else none

/-- Parse the members of a non-empty object, including the closing
brace. -/
def parseJObjItems : Nat → Str → Option (List (Str × Json) × Str)
  | 0, _ => none
  | fuel + 1, cs =>
    match skipWs cs with
    | '"' :: r =>
      match parseJStr (r.length + 1) r with
      | none => none
      | some (k, r') =>
        match skipWs r' with
        | ':' :: r'' =>
          match parseJVal fuel r'' with
          | none => none
          | some (v, r3) =>
            match skipWs r3 with
            | [] => none
            | c :: r4 =>
              if c = ',' then
                match parseJObjItems fuel r4 with
                | some (kvs, r5) => some ((k, v) :: kvs, r5)
                | none => none
              else if c = cbrace then some ([(k, v)], r4)
              else none
        | _ => none
    | _ => none

end

/-- `json.loads`: parse one value and require only whitespace after it. -/
def json_loads (s : Str) : Option Json :=
  match parseJVal (2 * s.length + 2) s with
  | some (v, rest) => if skipWs rest = [] then some v else none
  | none => none

/-- `json.dumps` string escaping, for the characters a token can carry. -/
def escapeJStr : Str → Str
  | [] => []
  | c :: cs =>
    if c = '"' ∨ c = '\\' then '\\' :: c :: escapeJStr cs
    else if c = '\n' then '\\' :: 'n' :: escapeJStr cs
    else if c = '\t' then '\\' :: 't' :: escapeJStr cs
    else if c = '\r' then '\\' :: 'r' :: escapeJStr cs
    else c :: escapeJStr cs

/-- `json.dumps` of a string-or-null value. -/
def dumpStrOrNull : Option Str → Str
  | none => ofStr "null"
  | some s => '"' :: (escapeJStr s ++ ['"'])

/-! ## The protocol engine (`kuha/oai/views.py`) -/

/-- The request parameters: an ordered multidict of strings. -/
abbrev Params := List (Str × Str)

/-- A `str → str-or-None` parameter dict: either the request parameters
or the decoded resumption-token dict (whose values, after the type check,
are strings or `None`). -/
abbrev MParams := List (Str × Option Str)

/-- `params.getall(k)`. -/
def getallM (ps : MParams) (k : Str) : List (Option Str) :=
  (ps.filter (fun kv => kv.1 == k)).map (fun kv => kv.2)

/-- `k in params`. -/
def hasKeyM (ps : MParams) (k : Str) : Bool :=
  ps.any (fun kv => kv.1 == k)

/-- `params.get(k)` (also used for `params[k]` where the key is known to
be present): `None` for an absent key and for a key bound to `None`,
exactly as `dict.get` behaves for the token dict. -/
def mget (ps : MParams) (k : Str) : Option Str :=
  match ps.find? (fun kv => kv.1 == k) with
  | some kv => kv.2
  | none => none

/-- The OAI-PMH error taxonomy of `kuha/exception.py` (the payloads keep
what the claims need of the messages). -/
inductive OaiErr where
  | missingVerb
  | repeatedVerb
  | invalidVerb
  | badArgument (msg : Str)
  | invalidResumptionToken
  | expiredResumptionToken
  | unsupportedMetadataFormat (pfx : Option Str)
  | unavailableMetadataFormat
  | idDoesNotExist (identifier : Str)
  | noRecordsMatch
  | noMetadataFormats
  | noSetHierarchy
deriving DecidableEq, Repr

/-- Exceptions escaping a view: `OaiException`s (rendered as protocol
errors) versus anything else (an internal server fault).  The
`except exception.OaiException` handler in `handle_list_items` catches
exactly the first kind. -/
inductive Err where
  | oai (e : OaiErr)
  | internal (e : ModelErr)
deriving DecidableEq, Repr

/-- The `for p in params` loop of `_check_params`: first offending key
wins; an illegal key beats the repetition check for the same key. -/
def checkParamsLoop (ps : MParams) (required allowed : List Str) :
    List (Str × Option Str) → Except OaiErr Unit
  | [] => .ok ()
  | (k, _) :: rest =>
    if (k != ofStr "verb") && !(allowed.contains k) && !(required.contains k)
    then .error (.badArgument (ofStr "Illegal argument: " ++ k))
    else if (getallM ps k).length > 1 then
      .error (.badArgument (ofStr "Repeated argument: " ++ k))
    else checkParamsLoop ps required allowed rest

/-- `views._check_params(params, required, allowed)`. -/
def _check_params (ps : MParams) (required : List Str := [])
    (allowed : List Str := []) : Except OaiErr Unit :=
  if !hasKeyM ps (ofStr "verb") then .error .missingVerb
  else if (getallM ps (ofStr "verb")).length > 1 then .error .repeatedVerb
  else
    match checkParamsLoop ps required allowed ps with
    | .error e => .error e
    | .ok _ =>
      match required.find? (fun p => !hasKeyM ps p) with
      | some p => .error (.badArgument (ofStr "Missing argument: " ++ p))
      | none => .ok ()

/-- `views._check_resumption_token_date(token)`: any failure to read and
parse `token['date']` (missing key, `None`, malformed text) lands in the
bare `except` and becomes `InvalidResumptionToken`; then the token is
expired iff `Datestamp.get()` is non-null and `>=` the parsed date. -/
def _check_resumption_token_date (token : MParams) (st : Store) :
    Except OaiErr Unit :=
  match token.find? (fun kv => kv.1 == ofStr "date") with
  | none => .error .invalidResumptionToken
  | some (_, none) => .error .invalidResumptionToken
  | some (_, some ds) =>
    match parse_date ds with
    | .error _ => .error .invalidResumptionToken
    | .ok (date, _) =>
      match Datestamp.get st with
      | some latest =>
        if DateTime.le date latest then .error .expiredResumptionToken
        else .ok ()
      | none => .ok ()

/-- An OAI request: the query parameters (the `verb=...` dispatch has
already matched one of the list verbs). -/
structure Request where
  params : Params

/-- The request parameters as a string-or-null dict. -/
def Request.mparams (req : Request) : MParams :=
  req.params.map (fun kv => (kv.1, some kv.2))

/-- The deployment settings that the list verbs read. -/
structure Config where
  item_list_limit : Nat
  deleted_records : Str

/-- `views._get_ignore_deleted`. -/
def _get_ignore_deleted (cfg : Config) : Bool :=
  cfg.deleted_records == ofStr "no"

/-- `views._get_resumption_token(request)`: exclusivity check on the raw
request parameters, then `json.loads`, the dict/type checks, the verb
check and the date check, in source order. -/
def _get_resumption_token (req : Request) (st : Store) :
    Except OaiErr (Option MParams) :=
  if !hasKeyM req.mparams (ofStr "resumptionToken") then .ok none
  else
    match _check_params req.mparams [ofStr "resumptionToken"] [] with
    | .error e => .error e
    | .ok _ =>
      match mget req.mparams (ofStr "resumptionToken") with
      | none => .error .invalidResumptionToken
      | some tok =>
        match json_loads tok with
        | none => .error .invalidResumptionToken
        | some (.obj fields) =>
          if fields.all (fun kv =>
              match kv.2 with
              | .null => true
              | .str _ => true
              | _ => false) then
            let tokenParams : MParams := fields.map (fun kv =>
              (kv.1, match kv.2 with | .str s => some s | _ => none))
            if mget tokenParams (ofStr "verb") =
               mget req.mparams (ofStr "verb") then
              match _check_resumption_token_date tokenParams st with
              | .error e => .error e
              | .ok _ => .ok (some tokenParams)
            else .error .invalidResumptionToken
          else .error .invalidResumptionToken
        | some _ => .error .invalidResumptionToken

/-- `Format.exists` as called with a possibly-`None` prefix
(`filter_by(prefix=None)` matches no row of a primary-key column). -/
def Format.existsOpt (st : Store) (pfx : Option Str)
    (ignore_deleted : Bool) : Except DBErr Bool :=
  match pfx with
  | none => .ok false
  | some p => Format.exists st p ignore_deleted

/-- `views._get_metadata_pfx(params, ignore_deleted)`. -/
def _get_metadata_pfx (params : MParams) (ignore_deleted : Bool)
    (st : Store) : Except Err (Option Str) :=
  let pfx := mget params (ofStr "metadataPrefix")
  match Format.existsOpt st pfx ignore_deleted with
  | .error e => .error (.internal (.dbError e))
  | .ok true => .ok pfx
  | .ok false => .error (.oai (.unsupportedMetadataFormat pfx))

/-- `views._parse_from_and_until(from_date_str, until_date_str)`. -/
def _parse_from_and_until (from_str until_str : Option Str) :
    Except Err (Option DateTime × Option DateTime) :=
  let fromRes : Except Err (Option (DateTime × Granularity)) :=
    match from_str with
    | none => .ok none
    | some s =>
      match parse_date s ⟨0, 0, 0⟩ with
      | .ok r => .ok (some r)
      | .error _ =>
        .error (.oai (.badArgument (ofStr "Illegal \"from\" datestamp")))
  match fromRes with
  | .error e => .error e
  | .ok fromR =>
    let untilRes : Except Err (Option (DateTime × Granularity)) :=
      match until_str with
      | none => .ok none
      | some s =>
        match parse_date s ⟨23, 59, 59⟩ with
        | .ok r => .ok (some r)
        | .error _ =>
          .error (.oai (.badArgument (ofStr "Illegal \"until\" datestamp")))
    match untilRes with
    | .error e => .error e
    | .ok untilR =>
      match fromR, untilR with
      | some (fd, fg), some (ud, ug) =>
        if fg ≠ ug then
          .error (.oai (.badArgument
            (ofStr "Datestamps \"from\" and \"until\" have different granularity")))
        else if !(DateTime.le fd ud) then
          .error (.oai (.badArgument
            (ofStr "Datestamp \"from\" is greater than \"until\"")))
        else .ok (some fd, some ud)
      | fR, uR => .ok (fR.map (fun r => r.1), uR.map (fun r => r.1))

/-- `views._get_records(params, ignore_deleted, limit)`. -/
def _get_records (params : MParams) (ignore_deleted : Bool) (limit : Nat)
    (st : Store) : Except Err (List RecordRow × Option Str) :=
  match _get_metadata_pfx params ignore_deleted st with
  | .error e => .error e
  | .ok pfx =>
    match _parse_from_and_until (mget params (ofStr "from"))
        (mget params (ofStr "until")) with
    | .error e => .error e
    | .ok (from_date, until_date) =>
      if hasKeyM params (ofStr "set") && st.sets.isEmpty then
        .error (.oai .noSetHierarchy)
      else
        match Record.list st none pfx from_date until_date
            (mget params (ofStr "set")) ignore_deleted
            (mget params (ofStr "offset")) (some ((limit : Int) + 1)) with
        | .error e => .error (.internal e)
        | .ok records =>
          if records.isEmpty then .error (.oai .noRecordsMatch)
          else if records.length = limit + 1 then
            .ok (records.dropLast,
                 (records.getLast?).map (fun r => r.identifier))
          else .ok (records, none)

/-- `views._create_resumption_token(params, offset, time)`: the
`json.dumps` of the seven-field dict (serialised in the order the source
writes the dict literal; the Python 2 dict iteration order is
implementation-defined and nothing consumes it but `json.loads`).  The
`format_datestamp(time)` call can raise `ValueError` (year < 1900); the
error propagates to the caller. -/
def _create_resumption_token (params : MParams) (offset : Str)
    (time : DateTime) : Except String Str :=
  match format_datestamp time with
  | .error m => .error m
  | .ok ds =>
    .ok (obrace ::
      (ofStr "\"verb\": " ++ dumpStrOrNull (mget params (ofStr "verb")) ++
       ofStr ", \"metadataPrefix\": " ++
         dumpStrOrNull (mget params (ofStr "metadataPrefix")) ++
       ofStr ", \"offset\": " ++ dumpStrOrNull (some offset) ++
       ofStr ", \"date\": " ++ dumpStrOrNull (some ds) ++
       ofStr ", \"from\": " ++ dumpStrOrNull (mget params (ofStr "from")) ++
       ofStr ", \"until\": " ++
         dumpStrOrNull (mget params (ofStr "until")) ++
       ofStr ", \"set\": " ++ dumpStrOrNull (mget params (ofStr "set")) ++
       [cbrace]))

/-- The required-parameter list of `handle_list_items`. -/
def listRequired (hasTok : Bool) : List Str :=
  if hasTok then
    [ofStr "metadataPrefix", ofStr "offset", ofStr "date",
     ofStr "from", ofStr "until", ofStr "set"]
  else [ofStr "metadataPrefix"]

/-- The allowed-parameter list of `handle_list_items`. -/
def listAllowed (hasTok : Bool) : List Str :=
  if hasTok then [] else [ofStr "from", ofStr "until", ofStr "set"]

/-- The body of the `try` block of `handle_list_items`: re-validate the
(possibly token-supplied) parameters and fetch the records. -/
def listItemsTryBlock (params : MParams) (hasTok : Bool)
    (ignore_deleted : Bool) (limit : Nat) (st : Store) :
    Except Err (List RecordRow × Option Str) :=
  match _check_params params (listRequired hasTok) (listAllowed hasTok) with
  | .error e => .error (.oai e)
  | .ok _ => _get_records params ignore_deleted limit st

/-- `views.handle_list_items` (ListIdentifiers / ListRecords).  The
response is the record page and the resumption token to emit: a minted
token, the empty string on the terminal page of a continuation, or no
token at all. -/
def handle_list_items (req : Request) (st : Store) (cfg : Config)
    (now : DateTime) : Except Err (List RecordRow × Option Str) :=
  let limit := cfg.item_list_limit
  match _get_resumption_token req st with
  | .error e => .error (.oai e)
  | .ok token_params =>
    let hasTok := token_params.isSome
    let params : MParams :=
      match token_params with
      | some tp => tp
      | none => req.mparams
    match listItemsTryBlock params hasTok (_get_ignore_deleted cfg)
        limit st with
    | .error (.oai e) =>
      if hasTok then .error (.oai .invalidResumptionToken)
      else .error (.oai e)
    | .error (.internal e) => .error (.internal e)
    | .ok (records, next_offset) =>
      match next_offset with
      | some off =>
        match _create_resumption_token params off now with
        | .error m => .error (.internal (.valueError m))
        | .ok tok => .ok (records, some tok)
      | none =>
        if hasTok then .ok (records, some []) else .ok (records, none)

/-! ## Concrete instances used by witnesses and counterexamples -/

def exNow : DateTime := ⟨2020, 1, 2, 3, 4, 5⟩

def exNs : Str := ofStr "http://example.org/ns"

def exSchema : Str := ofStr "http://example.org/schema.xsd"

def exFormat : FormatRow := ⟨ofStr "oai_dc", exNs, exSchema, false⟩

def exDocA : XmlDoc := .doc (some exNs) (some [exSchema]) (ofStr "<a/>")

def exDocB : XmlDoc := .doc (some exNs) (some [exSchema]) (ofStr "<b/>")

def exItem : ItemRow := ⟨ofStr "item1", false⟩

def exRecA : RecordRow :=
  ⟨ofStr "item1", ofStr "oai_dc", ⟨2019, 1, 1, 0, 0, 0⟩, some exDocA, false⟩

def exStore : Store := ⟨[exFormat], [exItem], [exRecA], [], [], none⟩

/-- The row `Record.create_or_update exStore exNow "item1" "oai_dc"
(some exDocB)` produces. -/
def exRecUpd : RecordRow :=
  ⟨ofStr "item1", ofStr "oai_dc", exNow, some exDocB, false⟩

def exStoreUpd : Store :=
  ⟨[exFormat], [exItem], [exRecUpd], [], [], some exNow⟩

/-- A store whose `oai_dc` format is soft-deleted. -/
def exStoreDelDc : Store :=
  ⟨[⟨ofStr "oai_dc", exNs, exSchema, true⟩], [], [], [], [], none⟩

def exStoreEmpty : Store := ⟨[], [], [], [], [], none⟩

/-- The store produced by `ensure_oai_dc_exists exStoreEmpty`. -/
def exStoreInit : Store :=
  ⟨[⟨ofStr "oai_dc", ofStr "http://www.openarchives.org/OAI/2.0/oai_dc/",
     ofStr "http://www.openarchives.org/OAI/2.0/oai_dc.xsd", false⟩],
   [], [], [], [], none⟩

/-- A well-formed resumption token (as `_create_resumption_token` mints
them), dated 2020-01-01T00:00:00Z. -/
def exTokStr : Str :=
  ofStr "\x7b\"verb\": \"ListRecords\", \"metadataPrefix\": \"oai_dc\", \"offset\": \"item1\", \"date\": \"2020-01-01T00:00:00Z\", \"from\": null, \"until\": null, \"set\": null\x7d"

/-- The JSON object `json.loads exTokStr` yields. -/
def exTokFields : List (Str × Json) :=
  [(ofStr "verb", .str (ofStr "ListRecords")),
   (ofStr "metadataPrefix", .str (ofStr "oai_dc")),
   (ofStr "offset", .str (ofStr "item1")),
   (ofStr "date", .str (ofStr "2020-01-01T00:00:00Z")),
   (ofStr "from", .null), (ofStr "until", .null), (ofStr "set", .null)]

/-- `exTokFields` as a string-or-null parameter dict. -/
def exTokParams : MParams :=
  [(ofStr "verb", some (ofStr "ListRecords")),
   (ofStr "metadataPrefix", some (ofStr "oai_dc")),
   (ofStr "offset", some (ofStr "item1")),
   (ofStr "date", some (ofStr "2020-01-01T00:00:00Z")),
   (ofStr "from", none), (ofStr "until", none), (ofStr "set", none)]

/-- A continuation request presenting `exTokStr`. -/
def exReqTok : Request :=
  ⟨[(ofStr "verb", ofStr "ListRecords"),
    (ofStr "resumptionToken", exTokStr)]⟩

/-- A store last modified in the very second the token was issued. -/
def exStoreStamped : Store := ⟨[], [], [], [], [], some ⟨2020, 1, 1, 0, 0, 0⟩⟩

def exCfg : Config := ⟨2, ofStr "persistent"⟩

/-- A request carrying a resumption token together with another
parameter. -/
def exReqTokExtra : Request :=
  ⟨[(ofStr "verb", ofStr "ListRecords"),
    (ofStr "resumptionToken", ofStr "x"),
    (ofStr "metadataPrefix", ofStr "oai_dc")]⟩

/-- A record with a given identifier for the `Record.list` examples. -/
def exRecI (i : String) : RecordRow :=
  ⟨ofStr i, ofStr "oai_dc", ⟨2020, 1, 1, 0, 0, 0⟩, none, false⟩

/-- A store with four records stored out of identifier order. -/
def exStore8 : Store :=
  ⟨[exFormat], [],
   [exRecI "c", exRecI "a", exRecI "b", exRecI "d"], [], [], none⟩

/-- `Record.list exStore8` with `offset = "b"` and `limit = 2`. -/
def exList8 : List RecordRow := [exRecI "b", exRecI "c"]

/-- A store with a set hierarchy: item1 is linked to `a`, `a:b`,
`a:b:c`, `a:x` and `d`. -/
def exSpecsStore : Store :=
  ⟨[], [⟨ofStr "item1", false⟩], [],
   [⟨ofStr "a", ofStr "A"⟩, ⟨ofStr "a:b", ofStr "AB"⟩,
    ⟨ofStr "a:b:c", ofStr "ABC"⟩, ⟨ofStr "a:x", ofStr "AX"⟩,
    ⟨ofStr "d", ofStr "D"⟩],
   [(ofStr "a", ofStr "item1"), (ofStr "a:b", ofStr "item1"),
    (ofStr "a:b:c", ofStr "item1"), (ofStr "a:x", ofStr "item1"),
    (ofStr "d", ofStr "item1")], none⟩

/-! ## Theorems -/

/-- **C9.**  For every ListIdentifiers or ListRecords request whose
`resumptionToken` parameter is the empty string — the value the engine
itself emits to mark the terminal page of a continuation sequence — the
engine raises `InvalidResumptionToken`: the empty string fails
`json.loads`, before any later validation, and the failure is raised
outside the error-translating `try` block. -/
theorem empty_resumption_token_invalid (vb : Str) (st : Store)
    (cfg : Config) (now : DateTime) :
    handle_list_items
      ⟨[(ofStr "verb", vb), (ofStr "resumptionToken", ofStr "")]⟩
      st cfg now = .error (.oai .invalidResumptionToken) := rfl

/-- **C1**, counterexample.  Starting from a store holding one non-deleted
record with non-null xml, `Record.mark_as_deleted` produces a record whose
`deleted` flag is true while its `xml` field is still non-null: the
invariant `deleted ⇒ xml IS NULL` fails after a store operation. -/
theorem deleted_record_with_xml_cex :
    ¬ (∀ r ∈ (Record.mark_as_deleted exStore exNow none none).records,
         r.deleted = true → r.xml = none) := by decide

/-- **C1**, amended: the `mark_as_deleted` operations (and through them
`Item.mark_as_deleted` and `Format.mark_as_deleted`) set the `deleted`
flag and refresh the datestamp but never touch the `xml` column, and a
successful `Record.create_or_update` always leaves the record
non-deleted; so a deleted record keeps whatever xml it last had, and
`deleted ⇒ xml IS NULL` holds only for records whose xml was already
null. -/
theorem mark_as_deleted_preserves_xml :
    (∀ (st : Store) (now : DateTime) (ident pfx : Option Str),
      (Record.mark_as_deleted st now ident pfx).records.map RecordRow.xml =
        st.records.map RecordRow.xml) ∧
    (∀ (st : Store) (now : DateTime) (i p : Str) (x : Option XmlDoc)
        (st' : Store) (r : RecordRow),
      Record.create_or_update st now i p x = .ok (st', r) →
      r.deleted = false) := by
  constructor
  · intro st now ident pfx
    have hmap : ∀ (g : RecordRow → Bool) (l : List RecordRow) (n : DateTime),
        (l.map (fun r =>
          if g r then { r with deleted := true, datestamp := n } else r)).map
            RecordRow.xml = l.map RecordRow.xml := by
      intro g l n
      rw [List.map_map]
      apply List.map_congr_left
      intro r _
      by_cases h : g r <;> simp [h]
    have hbr : ∀ (c : Prop) (inst : Decidable c) (s : Store) (n : DateTime),
        (if c then Datestamp.update s n else s).records = s.records := by
      intro c inst s n
      split <;> rfl
    simp only [Record.mark_as_deleted]
    rw [hbr]
    exact hmap _ st.records now
  · intro st now i p x st' r h
    unfold Record.create_or_update at h
    split at h
    · -- no existing record: Record.create
      unfold Record.create at h
      split at h
      · exact absurd h (by simp)
      · exact absurd h (by simp)
      · split at h
        · exact absurd h (by simp)
        · exact absurd h (by simp)
        · split at h
          · simp only [Except.ok.injEq, Prod.mk.injEq] at h
            rw [← h.2]
          · split at h
            · exact absurd h (by simp)
            · simp only [Except.ok.injEq, Prod.mk.injEq] at h
              rw [← h.2]
    · exact absurd h (by simp)
    · -- existing record: Record.update
      rename_i record _
      unfold Record.update at h
      split at h
      · split at h
        · exact absurd h (by simp)
        · split at h
          · exact absurd h (by simp)
          · simp only [Except.ok.injEq, Prod.mk.injEq] at h
            rw [← h.2]
      · rename_i hcond
        simp only [Except.ok.injEq, Prod.mk.injEq] at h
        rw [← h.2]
        push_neg at hcond
        exact Bool.of_not_eq_true hcond.1

/-- Witness for the amended C1 theorem at a concrete store. -/
theorem mark_as_deleted_preserves_xml_witness :
    ((Record.mark_as_deleted exStore exNow none none).records.map
        RecordRow.xml = exStore.records.map RecordRow.xml) ∧
    exRecUpd.deleted = false :=
  ⟨mark_as_deleted_preserves_xml.1 exStore exNow none none,
   mark_as_deleted_preserves_xml.2 exStore exNow (ofStr "item1")
     (ofStr "oai_dc") (some exDocB) exStoreUpd exRecUpd (by rfl)⟩

/-- **C7**, counterexample.  If the store already holds a soft-deleted
`oai_dc` format, `ensure_oai_dc_exists` succeeds without changing
anything (`Format.exists` is called without `ignore_deleted`), so after
initialization no non-deleted `oai_dc` format exists. -/
theorem ensure_oai_dc_deleted_survives_cex :
    ensure_oai_dc_exists exStoreDelDc = .ok exStoreDelDc ∧
    ¬ (∃ f ∈ exStoreDelDc.formats,
        f.pfx = ofStr "oai_dc" ∧ f.deleted = false) :=
  ⟨rfl, by decide⟩

/-- **C7**, amended: after `ensure_oai_dc_exists` succeeds, a Format with
prefix `oai_dc` exists in the store; when no `oai_dc` row existed at all
it is created with `deleted = false`, but a pre-existing row — deleted or
not — is left untouched. -/
theorem ensure_oai_dc_after_init :
    ∀ (st st' : Store), ensure_oai_dc_exists st = .ok st' →
      (∃ f ∈ st'.formats, f.pfx = ofStr "oai_dc") ∧
      (st.formats.filter (fun f => f.pfx == ofStr "oai_dc") = [] →
        ∃ f ∈ st'.formats, f.pfx = ofStr "oai_dc" ∧ f.deleted = false) := by
  intro st st' h
  unfold ensure_oai_dc_exists Format.exists at h
  simp only [Bool.false_eq_true, if_false] at h
  rcases hq : st.formats.filter (fun f => f.pfx == ofStr "oai_dc") with
    _ | ⟨f, _ | ⟨g, rest⟩⟩ <;> rw [hq] at h
  · -- no oai_dc row at all: Format.create runs
    unfold Format.create at h
    simp only [show (ofStr "oai_dc").any invalidPrefixChar = false from rfl,
      Bool.false_eq_true, if_false, Except.ok.injEq] at h
    subst h
    constructor
    · exact ⟨_, List.mem_append_right _ (List.mem_singleton_self _), rfl⟩
    · intro _
      exact ⟨_, List.mem_append_right _ (List.mem_singleton_self _), rfl, rfl⟩
  · -- exactly one oai_dc row: left as it is
    simp only [Except.ok.injEq] at h
    subst h
    have hf := List.mem_filter.mp (hq ▸ List.mem_singleton_self f)
    refine ⟨⟨f, hf.1, by simpa using hf.2⟩, ?_⟩
    intro hnone
    rw [hnone] at hq
    cases hq
  · -- more than one row: MultipleResultsFound, no success
    cases h

/-- Witness for the amended C7 theorem: initializing an empty store. -/
theorem ensure_oai_dc_after_init_witness :
    (∃ f ∈ exStoreInit.formats, f.pfx = ofStr "oai_dc") ∧
    (∃ f ∈ exStoreInit.formats, f.pfx = ofStr "oai_dc" ∧
      f.deleted = false) :=
  ⟨(ensure_oai_dc_after_init exStoreEmpty exStoreInit rfl).1,
   (ensure_oai_dc_after_init exStoreEmpty exStoreInit rfl).2 rfl⟩

/-- **C2.**  When a resumption token with parseable syntax, matching
verb, string-or-null fields and a parseable date field is presented, and
`Datestamp.get()` is non-null and `>=` the token's parsed date, token
validation raises `ExpiredResumptionToken`.  The comparison hypothesis is
`DateTime.le d latest`, i.e. `latest >= d` — equality included, so a
mutation in the same second as issuance expires the token (the witness
instantiates `latest = d`). -/
theorem same_second_token_expired
    (req : Request) (st : Store) (tok : Str) (fields : List (Str × Json))
    (tp : MParams) (kd ds : Str) (d : DateTime) (g : Granularity)
    (latest : DateTime)
    (hhas : hasKeyM req.mparams (ofStr "resumptionToken") = true)
    (hck : _check_params req.mparams [ofStr "resumptionToken"] [] = .ok ())
    (htok : mget req.mparams (ofStr "resumptionToken") = some tok)
    (hjson : json_loads tok = some (.obj fields))
    (htypes : fields.all (fun kv => match kv.2 with
        | .null => true | .str _ => true | _ => false) = true)
    (htp : tp = fields.map (fun kv =>
        (kv.1, match kv.2 with | .str s => some s | _ => none)))
    (hverb : mget tp (ofStr "verb") = mget req.mparams (ofStr "verb"))
    (hdate : tp.find? (fun kv => kv.1 == ofStr "date") = some (kd, some ds))
    (hparse : parse_date ds = .ok (d, g))
    (hlatest : Datestamp.get st = some latest)
    (hge : DateTime.le d latest = true) :
    _get_resumption_token req st = .error .expiredResumptionToken := by
  subst htp
  have hdatecheck : _check_resumption_token_date
      (fields.map (fun kv =>
        (kv.1, match kv.2 with | .str s => some s | _ => none))) st =
      .error .expiredResumptionToken := by
    unfold _check_resumption_token_date
    rw [hdate]
    simp only [hparse, hlatest, hge, if_true]
  unfold _get_resumption_token
  rw [hhas]
  simp only [Bool.not_true, Bool.false_eq_true, if_false, hck, htok, hjson,
    htypes, hverb, hdatecheck, if_true]

set_option maxRecDepth 8192 in
/-- Witness for C2: the store's datestamp equals the token's date (a
mutation in the same second as issuance), and the token expires. -/
theorem same_second_token_expired_witness :
    _get_resumption_token exReqTok exStoreStamped =
      .error .expiredResumptionToken :=
  same_second_token_expired exReqTok exStoreStamped exTokStr exTokFields
    exTokParams (ofStr "date") (ofStr "2020-01-01T00:00:00Z")
    ⟨2020, 1, 1, 0, 0, 0⟩ .second ⟨2020, 1, 1, 0, 0, 0⟩
    rfl rfl rfl (by rfl) rfl rfl rfl rfl rfl rfl rfl

/-- **C3.**  On a continuation request whose token passed validation, any
OAI error raised while re-validating the token-supplied parameters or
fetching records is replaced by `InvalidResumptionToken`; an
`ExpiredResumptionToken` raised during token validation itself (before
the `try` block) propagates unchanged. -/
theorem continuation_error_replaced :
    (∀ (req : Request) (st : Store) (cfg : Config) (now : DateTime)
        (tp : MParams) (e : OaiErr),
      _get_resumption_token req st = .ok (some tp) →
      listItemsTryBlock tp true (_get_ignore_deleted cfg)
        cfg.item_list_limit st = .error (.oai e) →
      handle_list_items req st cfg now =
        .error (.oai .invalidResumptionToken)) ∧
    (∀ (req : Request) (st : Store) (cfg : Config) (now : DateTime),
      _get_resumption_token req st = .error .expiredResumptionToken →
      handle_list_items req st cfg now =
        .error (.oai .expiredResumptionToken)) := by
  constructor
  · intro req st cfg now tp e h1 h2
    simp only [handle_list_items, h1, Option.isSome_some, h2, if_true]
  · intro req st cfg now h
    simp only [handle_list_items, h]

set_option maxRecDepth 8192 in
/-- Witness for C3: a token over an empty store (so `metadataPrefix`
re-validation fails with `UnsupportedMetadataFormat`, surfaced as
`InvalidResumptionToken`) and an expired token (surfaced as
`ExpiredResumptionToken`). -/
theorem continuation_error_replaced_witness :
    handle_list_items exReqTok exStoreEmpty exCfg exNow =
      .error (.oai .invalidResumptionToken) ∧
    handle_list_items exReqTok exStoreStamped exCfg exNow =
      .error (.oai .expiredResumptionToken) :=
  ⟨continuation_error_replaced.1 exReqTok exStoreEmpty exCfg exNow
     exTokParams (.unsupportedMetadataFormat (some (ofStr "oai_dc")))
     (by rfl) (by rfl),
   continuation_error_replaced.2 exReqTok exStoreStamped exCfg exNow
     (by rfl)⟩

/-- **C4.**  For an existing record: `Record.create_or_update` is a
complete no-op (same store, same record — in particular same record
datestamp and same global Datestamp) when the record is not deleted and
the stored xml equals the new xml; when the record is deleted or the xml
differs (and the new xml passes validation), the record's datestamp and
the global Datestamp are both set to `now`. -/
theorem create_or_update_noop_or_stamp :
    (∀ (st : Store) (now : DateTime) (i p : Str) (x : Option XmlDoc)
        (record : RecordRow),
      queryOne (fun r => r.identifier == i && r.pfx == p) st.records =
        .ok record →
      record.deleted = false → record.xml = x →
      Record.create_or_update st now i p x = .ok (st, record)) ∧
    (∀ (st : Store) (now : DateTime) (i p : Str) (xd : XmlDoc)
        (record : RecordRow) (fmt : FormatRow),
      queryOne (fun r => r.identifier == i && r.pfx == p) st.records =
        .ok record →
      (record.deleted = true ∨ record.xml ≠ some xd) →
      queryOne (fun f => f.pfx == record.pfx) st.formats = .ok fmt →
      _check_xml xd fmt = .ok () →
      ∃ st' r', Record.create_or_update st now i p (some xd) =
          .ok (st', r') ∧
        r'.datestamp = now ∧ Datestamp.get st' = some now) := by
  constructor
  · intro st now i p x record hq hdel hxml
    unfold Record.create_or_update
    simp only [hq]
    unfold Record.update
    rw [if_neg]
    rintro (h | h)
    · rw [hdel] at h
      cases h
    · exact h hxml
  · intro st now i p xd record fmt hq hcase hfmt hcheck
    unfold Record.create_or_update
    simp only [hq]
    unfold Record.update
    rw [if_pos hcase]
    simp only [hfmt, hcheck]
    exact ⟨_, _, rfl, rfl, rfl⟩

/-- Witness for C4: at `exStore`, re-storing the same xml is a no-op and
storing different xml stamps both datestamps. -/
theorem create_or_update_noop_or_stamp_witness :
    Record.create_or_update exStore exNow (ofStr "item1") (ofStr "oai_dc")
      (some exDocA) = .ok (exStore, exRecA) ∧
    (∃ st' r', Record.create_or_update exStore exNow (ofStr "item1")
        (ofStr "oai_dc") (some exDocB) = .ok (st', r') ∧
      r'.datestamp = exNow ∧ Datestamp.get st' = some exNow) :=
  ⟨create_or_update_noop_or_stamp.1 exStore exNow (ofStr "item1")
     (ofStr "oai_dc") (some exDocA) exRecA rfl rfl rfl,
   create_or_update_noop_or_stamp.2 exStore exNow (ofStr "item1")
     (ofStr "oai_dc") exDocB exRecA exFormat rfl (Or.inr (by decide))
     rfl rfl⟩

/-- The `for p in params` loop of `_check_params` fails with
`BadArgument` whenever some entry's key is neither `verb` nor allowed nor
required. -/
theorem checkParamsLoop_illegal (ps : MParams) (required allowed : List Str) :
    ∀ (l : List (Str × Option Str)) (k : Str) (v : Option Str),
      (k, v) ∈ l →
      ((k != ofStr "verb") && !(allowed.contains k) &&
        !(required.contains k)) = true →
      ∃ msg, checkParamsLoop ps required allowed l =
        .error (.badArgument msg) := by
  intro l
  induction l with
  | nil =>
    intro k v hm _
    cases hm
  | cons kv rest ih =>
    intro k v hm hk
    obtain ⟨k₀, v₀⟩ := kv
    simp only [checkParamsLoop]
    by_cases h0 : ((k₀ != ofStr "verb") && !(allowed.contains k₀) &&
        !(required.contains k₀)) = true
    · rw [if_pos h0]
      exact ⟨_, rfl⟩
    · rw [if_neg h0]
      rcases List.mem_cons.mp hm with heq | htail
      · injection heq with h1 h2
        subst h1
        exact absurd hk h0
      · obtain ⟨msg, hmsg⟩ := ih k v htail hk
        by_cases hrep : (getallM ps k₀).length > 1
        · rw [if_pos hrep]
          exact ⟨_, rfl⟩
        · rw [if_neg hrep, hmsg]
          exact ⟨msg, rfl⟩

/-- **C10.**  A ListIdentifiers/ListRecords request that carries a
`resumptionToken` together with any other non-verb parameter fails with
`BadArgument` (not a `badResumptionToken` error): the exclusivity check
on the raw request parameters runs inside `_get_resumption_token` before
the token is parsed—and outside the error-translating `try` block. -/
theorem token_with_other_params_bad_argument
    (req : Request) (st : Store) (cfg : Config) (now : DateTime)
    (k : Str) (v : Str)
    (hrt : hasKeyM req.mparams (ofStr "resumptionToken") = true)
    (hkv : (k, some v) ∈ req.mparams)
    (hkverb : k ≠ ofStr "verb") (hkrt : k ≠ ofStr "resumptionToken")
    (hverb : hasKeyM req.mparams (ofStr "verb") = true)
    (honce : ¬ (getallM req.mparams (ofStr "verb")).length > 1) :
    ∃ msg, handle_list_items req st cfg now =
      .error (.oai (.badArgument msg)) := by
  have hkcond : ((k != ofStr "verb") && !(([] : List Str).contains k) &&
      !(([ofStr "resumptionToken"] : List Str).contains k)) = true := by
    have h1 : (k != ofStr "verb") = true := bne_iff_ne.mpr hkverb
    have h2 : (([ofStr "resumptionToken"] : List Str).contains k) = false := by
      rw [Bool.eq_false_iff]
      intro hc
      have h3 : k ∈ [ofStr "resumptionToken"] := by simpa using hc
      rw [List.mem_singleton] at h3
      exact hkrt h3
    simp [h1, h2, hkrt]
  obtain ⟨msg, hloop⟩ := checkParamsLoop_illegal req.mparams
    [ofStr "resumptionToken"] [] req.mparams k (some v) hkv hkcond
  have hcp : _check_params req.mparams [ofStr "resumptionToken"] [] =
      .error (.badArgument msg) := by
    unfold _check_params
    rw [hverb]
    simp only [Bool.not_true, Bool.false_eq_true, if_false]
    rw [if_neg honce, hloop]
  have hgrt : _get_resumption_token req st = .error (.badArgument msg) := by
    unfold _get_resumption_token
    rw [hrt]
    simp only [Bool.not_true, Bool.false_eq_true, if_false]
    rw [hcp]
  refine ⟨msg, ?_⟩
  unfold handle_list_items
  rw [hgrt]

/-- Witness for C10: `resumptionToken` plus `metadataPrefix` in one
request yields `BadArgument`. -/
theorem token_with_other_params_bad_argument_witness :
    ∃ msg, handle_list_items exReqTokExtra exStoreEmpty exCfg exNow =
      .error (.oai (.badArgument msg)) :=
  token_with_other_params_bad_argument exReqTokExtra exStoreEmpty exCfg
    exNow (ofStr "metadataPrefix") (ofStr "oai_dc")
    rfl (by decide) (by decide) (by decide) rfl (by decide)

/-- `strLe` is total. -/
theorem strLe_total : ∀ a b : Str, (strLe a b || strLe b a) = true := by
  intro a
  induction a with
  | nil => intro b; simp [strLe]
  | cons x xs ih =>
    intro b
    cases b with
    | nil => simp [strLe]
    | cons y ys =>
      by_cases hxy : x = y
      · subst hxy
        simp only [strLe, if_pos rfl]
        exact ih ys
      · simp only [strLe, if_neg hxy, if_neg (Ne.symm hxy)]
        rcases lt_trichotomy x y with h | h | h
        · have : decide (x < y) = true := decide_eq_true h
          simp [this]
        · exact absurd h hxy
        · have : decide (y < x) = true := decide_eq_true h
          simp [this]

/-- `strLe` is transitive. -/
theorem strLe_trans : ∀ a b c : Str,
    strLe a b = true → strLe b c = true → strLe a c = true := by
  intro a
  induction a with
  | nil => intro b c _ _; simp [strLe]
  | cons x xs ih =>
    intro b c hab hbc
    cases b with
    | nil => simp [strLe] at hab
    | cons y ys =>
      cases c with
      | nil => simp [strLe] at hbc
      | cons z zs =>
        simp only [strLe] at hab hbc ⊢
        by_cases hxy : x = y
        · subst hxy
          rw [if_pos rfl] at hab
          by_cases hxz : x = z
          · subst hxz
            rw [if_pos rfl] at hbc ⊢
            exact ih ys zs hab hbc
          · rw [if_neg hxz] at hbc ⊢
            exact hbc
        · rw [if_neg hxy] at hab
          have hxy' : x < y := of_decide_eq_true hab
          by_cases hyz : y = z
          · subst hyz
            rw [if_neg hxy]
            exact decide_eq_true hxy'
          · rw [if_neg hyz] at hbc
            have hyz' : y < z := of_decide_eq_true hbc
            have hxz : x < z := lt_trans hxy' hyz'
            rw [if_neg (ne_of_lt hxz)]
            exact decide_eq_true hxz

/-- The offset clause preserves sortedness. -/
theorem offsetFilter_pairwise {R : RecordRow → RecordRow → Prop}
    (off : Option Str) (l : List RecordRow) (h : l.Pairwise R) :
    (offsetFilter off l).Pairwise R := by
  cases off with
  | none => exact h
  | some o => exact List.Pairwise.filter _ h

/-- Membership after the offset clause. -/
theorem mem_offsetFilter {off : Option Str} {l : List RecordRow}
    {r : RecordRow} (h : r ∈ offsetFilter off l) :
    r ∈ l ∧ ∀ o, off = some o → strLe o r.identifier = true := by
  cases off with
  | none => exact ⟨h, by rintro o ⟨⟩⟩
  | some o =>
    have h1 := List.mem_filter.mp h
    refine ⟨h1.1, ?_⟩
    rintro o' ho'
    injection ho' with ho'
    subst ho'
    exact h1.2

/-- Membership survives the offset clause for rows at or past the
offset. -/
theorem mem_offsetFilter_of {off : Option Str} {l : List RecordRow}
    {r : RecordRow} (hl : r ∈ l)
    (hof : ∀ o, off = some o → strLe o r.identifier = true) :
    r ∈ offsetFilter off l := by
  cases off with
  | none => exact hl
  | some o => exact List.mem_filter.mpr ⟨hl, hof o rfl⟩

/-- **C8.**  `Record.list` returns matching records ordered by identifier
ascending; with an `offset`, only records with `identifier >= offset`
come back (and, without a `limit`, exactly the matching ones); a negative
`limit` raises `ValueError` instead of returning anything. -/
theorem record_list_ordered_offset_limit :
    (∀ (st : Store) (ident mp : Option Str) (fd ud : Option DateTime)
        (s : Option Str) (ig : Bool) (off : Option Str) (lim : Option Int)
        (l : List RecordRow),
      Record.list st ident mp fd ud s ig off lim = .ok l →
      l.Pairwise (fun a b => strLe a.identifier b.identifier = true) ∧
      (∀ r ∈ l, r ∈ st.records ∧
        recordFilter st ident mp fd ud s ig r = true ∧
        ∀ o, off = some o → strLe o r.identifier = true) ∧
      (lim = none → ∀ r ∈ st.records,
        recordFilter st ident mp fd ud s ig r = true →
        (∀ o, off = some o → strLe o r.identifier = true) → r ∈ l)) ∧
    (∀ (st : Store) (ident mp : Option Str) (fd ud : Option DateTime)
        (s : Option Str) (ig : Bool) (off : Option Str) (n : Int),
      n < 0 →
      Record.list st ident mp fd ud s ig off (some n) =
        .error (.valueError "negative limit")) := by
  constructor
  · intro st ident mp fd ud s ig off lim l h
    simp only [Record.list] at h
    letI : IsTotal RecordRow
        (fun a b => strLe a.identifier b.identifier = true) :=
      ⟨fun a b => by
        have := strLe_total a.identifier b.identifier
        exact (Bool.or_eq_true _ _).mp this⟩
    letI : IsTrans RecordRow
        (fun a b => strLe a.identifier b.identifier = true) :=
      ⟨fun a b c => strLe_trans a.identifier b.identifier c.identifier⟩
    have hsorted : ((st.records.filter
        (recordFilter st ident mp fd ud s ig)).insertionSort
          (fun a b => strLe a.identifier b.identifier = true)).Pairwise
        (fun a b => strLe a.identifier b.identifier = true) :=
      List.sorted_insertionSort _ _
    have hressorted := offsetFilter_pairwise off _ hsorted
    have hresmem : ∀ r ∈ offsetFilter off ((st.records.filter
        (recordFilter st ident mp fd ud s ig)).insertionSort
          (fun a b => strLe a.identifier b.identifier = true)),
        r ∈ st.records ∧ recordFilter st ident mp fd ud s ig r = true ∧
        ∀ o, off = some o → strLe o r.identifier = true := by
      intro r hrm
      obtain ⟨h1, h2⟩ := mem_offsetFilter hrm
      have h3 := List.mem_filter.mp ((List.mem_insertionSort _).mp h1)
      exact ⟨h3.1, h3.2, h2⟩
    cases lim with
    | none =>
      simp only [Except.ok.injEq] at h
      subst h
      refine ⟨hressorted, hresmem, ?_⟩
      intro _ r hrmem hrfil hroff
      exact mem_offsetFilter_of
        ((List.mem_insertionSort _).mpr (List.mem_filter.mpr ⟨hrmem, hrfil⟩))
        hroff
    | some n =>
      by_cases hn : n < 0
      · simp only [hn, if_true] at h
        cases h
      · simp only [hn, if_false] at h
        simp only [Except.ok.injEq] at h
        subst h
        refine ⟨List.Pairwise.sublist (List.take_sublist _ _) hressorted,
          ?_, ?_⟩
        · intro r hrm
          exact hresmem r (List.take_subset _ _ hrm)
        · rintro ⟨⟩
  · intro st ident mp fd ud s ig off n hn
    simp [Record.list, hn]

set_option maxRecDepth 8192 in
/-- Witness for C8 at a four-record store: the page for `offset = "b"`,
`limit = 2` is sorted, and `limit = -1` errors. -/
theorem record_list_ordered_offset_limit_witness :
    exList8.Pairwise (fun a b => strLe a.identifier b.identifier = true) ∧
    Record.list exStore8 none none none none none false none (some (-1)) =
      .error (.valueError "negative limit") :=
  ⟨(record_list_ordered_offset_limit.1 exStore8 none none none none none
      false (some (ofStr "b")) (some 2) exList8 (by rfl)).1,
   record_list_ordered_offset_limit.2 exStore8 none none none none none
     false none (-1) (by decide)⟩

/-- The `ancestors` list enumerates exactly the proper colon-prefix
ancestors. -/
theorem mem_ancestors {a t : Str} :
    a ∈ ancestors t ↔ ∃ i, t[i]? = some ':' ∧ a = t.take i := by
  constructor
  · intro h
    simp only [ancestors, List.mem_filterMap, List.mem_range] at h
    obtain ⟨i, hi, hif⟩ := h
    by_cases hc : t[i]? = some ':'
    · rw [if_pos hc] at hif
      exact ⟨i, hc, (Option.some.inj hif).symm⟩
    · rw [if_neg hc] at hif
      cases hif
  · rintro ⟨i, hc, rfl⟩
    simp only [ancestors, List.mem_filterMap, List.mem_range]
    have hlen : i < t.length := (List.getElem?_eq_some_iff.mp hc).1
    exact ⟨i, hlen, by rw [if_pos hc]⟩

/-- A proper ancestor has strictly fewer colons. -/
theorem colonCount_lt_of_mem_ancestors {a t : Str} (h : a ∈ ancestors t) :
    colonCount a < colonCount t := by
  obtain ⟨i, hc, rfl⟩ := mem_ancestors.mp h
  obtain ⟨hlen, hti⟩ := List.getElem?_eq_some_iff.mp hc
  have hsplit : colonCount t = colonCount (t.take i) + colonCount (t.drop i) := by
    unfold colonCount
    rw [← List.count_append, List.take_append_drop]
  have hdrop : colonCount (t.drop i) = colonCount (t.drop (i + 1)) + 1 := by
    rw [List.drop_eq_getElem_cons hlen, hti]
    unfold colonCount
    rw [List.count_cons_self]
  omega

/-- Ancestors are transitive. -/
theorem ancestors_trans {a s t : Str} (h1 : a ∈ ancestors s)
    (h2 : s ∈ ancestors t) : a ∈ ancestors t := by
  obtain ⟨j, hcj, rfl⟩ := mem_ancestors.mp h2
  obtain ⟨i, hci, rfl⟩ := mem_ancestors.mp h1
  have hij : i < j := by
    have hlen : i < (t.take j).length :=
      (List.getElem?_eq_some_iff.mp hci).1
    simp only [List.length_take] at hlen
    omega
  apply mem_ancestors.mpr
  refine ⟨i, ?_, ?_⟩
  · rw [← List.getElem?_take_of_lt hij]
    exact hci
  · rw [List.take_take, Nat.min_eq_left (le_of_lt hij)]

/-- No spec is its own proper ancestor. -/
theorem not_mem_ancestors_self (s : Str) : s ∉ ancestors s :=
  fun h => absurd (colonCount_lt_of_mem_ancestors h) (lt_irrefl _)

/-- Characterization of the `Record.set_specs` loop: starting from a
descending-by-depth list `done ++ rest` of which `done` is already
consumed, with `processed` holding exactly ancestors of `done`'s output,
the loop keeps exactly the elements of `rest` that are proper ancestors
of nothing in the whole list. -/
theorem setSpecsLoop_mem_iff :
    ∀ (rest done processed : List Str),
      (done ++ rest).Pairwise (fun a b => colonCount b ≤ colonCount a) →
      (∀ p ∈ processed, ∃ t ∈ done, p ∈ ancestors t) →
      (∀ t ∈ done, ∀ a ∈ ancestors t, a ∈ processed) →
      ∀ s, s ∈ setSpecsLoop rest processed ↔
        (s ∈ rest ∧ ∀ t, (t ∈ done ∨ t ∈ rest) → s ∉ ancestors t) := by
  intro rest
  induction rest with
  | nil =>
    intro done processed _ _ _ s
    simp [setSpecsLoop]
  | cons s₀ tail ih =>
    intro done processed hsort hsound hcomp s
    have hsort' : ((done ++ [s₀]) ++ tail).Pairwise
        (fun a b => colonCount b ≤ colonCount a) := by
      simpa [List.append_assoc] using hsort
    have htail_le : ∀ t ∈ tail, colonCount t ≤ colonCount s₀ := by
      have h1 := (List.pairwise_append.mp hsort).2.1
      exact (List.pairwise_cons.mp h1).1
    have hconv : ∀ t, (t ∈ done ++ [s₀] ∨ t ∈ tail) →
        (t ∈ done ∨ t ∈ s₀ :: tail) := by
      intro t ht
      rcases ht with ht | ht
      · rcases List.mem_append.mp ht with ht | ht
        · exact Or.inl ht
        · rw [List.mem_singleton] at ht
          subst ht
          exact Or.inr (List.mem_cons_self _ _)
      · exact Or.inr (List.mem_cons_of_mem _ ht)
    have hconv' : ∀ t, (t ∈ done ∨ t ∈ s₀ :: tail) →
        (t ∈ done ++ [s₀] ∨ t ∈ tail) := by
      intro t ht
      rcases ht with ht | ht
      · exact Or.inl (List.mem_append_left _ ht)
      · rcases List.mem_cons.mp ht with rfl | ht
        · exact Or.inl (List.mem_append_right _ (List.mem_singleton_self _))
        · exact Or.inr ht
    by_cases hmem : s₀ ∈ processed
    · simp only [setSpecsLoop, if_pos hmem]
      have hsound' : ∀ p ∈ processed, ∃ t ∈ done ++ [s₀], p ∈ ancestors t := by
        intro p hp
        obtain ⟨t, ht, ha⟩ := hsound p hp
        exact ⟨t, List.mem_append_left _ ht, ha⟩
      have hcomp' : ∀ t ∈ done ++ [s₀], ∀ a ∈ ancestors t,
          a ∈ processed := by
        intro t ht a ha
        rcases List.mem_append.mp ht with ht | ht
        · exact hcomp t ht a ha
        · rw [List.mem_singleton] at ht
          subst ht
          obtain ⟨u, hu, hsu⟩ := hsound _ hmem
          exact hcomp u hu a (ancestors_trans ha hsu)
      have key := ih (done ++ [s₀]) processed hsort' hsound' hcomp' s
      rw [key]
      constructor
      · rintro ⟨hs, hno⟩
        exact ⟨List.mem_cons_of_mem _ hs, fun t ht => hno t (hconv' t ht)⟩
      · rintro ⟨hs, hno⟩
        rcases List.mem_cons.mp hs with rfl | hs
        · obtain ⟨u, hu, hsu⟩ := hsound _ hmem
          exact absurd hsu (hno u (Or.inl hu))
        · exact ⟨hs, fun t ht => hno t (hconv t ht)⟩
    · simp only [setSpecsLoop, if_neg hmem]
      have hs₀_noanc : ∀ t, (t ∈ done ∨ t ∈ s₀ :: tail) →
          s₀ ∉ ancestors t := by
        intro t ht hanc
        rcases ht with ht | ht
        · exact hmem (hcomp t ht s₀ hanc)
        · rcases List.mem_cons.mp ht with rfl | ht
          · exact not_mem_ancestors_self _ hanc
          · have h1 := htail_le t ht
            have h2 := colonCount_lt_of_mem_ancestors hanc
            omega
      have hsound' : ∀ p ∈ processed ++ ancestors s₀,
          ∃ t ∈ done ++ [s₀], p ∈ ancestors t := by
        intro p hp
        rcases List.mem_append.mp hp with hp | hp
        · obtain ⟨t, ht, ha⟩ := hsound p hp
          exact ⟨t, List.mem_append_left _ ht, ha⟩
        · exact ⟨s₀, List.mem_append_right _ (List.mem_singleton_self _), hp⟩
      have hcomp' : ∀ t ∈ done ++ [s₀], ∀ a ∈ ancestors t,
          a ∈ processed ++ ancestors s₀ := by
        intro t ht a ha
        rcases List.mem_append.mp ht with ht | ht
        · exact List.mem_append_left _ (hcomp t ht a ha)
        · rw [List.mem_singleton] at ht
          subst ht
          exact List.mem_append_right _ ha
      have key := ih (done ++ [s₀]) (processed ++ ancestors s₀) hsort'
        hsound' hcomp' s
      constructor
      · intro hlhs
        rcases List.mem_cons.mp hlhs with rfl | hs
        · exact ⟨List.mem_cons_self _ _, hs₀_noanc⟩
        · obtain ⟨hs', hno⟩ := key.mp hs
          exact ⟨List.mem_cons_of_mem _ hs',
            fun t ht => hno t (hconv' t ht)⟩
      · rintro ⟨hs, hno⟩
        rcases List.mem_cons.mp hs with rfl | hs
        · exact List.mem_cons_self _ _
        · exact List.mem_cons_of_mem _
            (key.mpr ⟨hs, fun t ht => hno t (hconv t ht)⟩)

/-- `set_specs` keeps exactly the fetched specs that are proper
ancestors of no fetched spec. -/
theorem set_specs_mem_iff (specs : List Str) (s : Str) :
    s ∈ set_specs specs ↔
      s ∈ specs ∧ ∀ t ∈ specs, s ∉ ancestors t := by
  letI : IsTotal Str (fun a b => colonCount b ≤ colonCount a) :=
    ⟨fun a b => Nat.le_total (colonCount b) (colonCount a)⟩
  letI : IsTrans Str (fun a b => colonCount b ≤ colonCount a) :=
    ⟨fun a b c hab hbc => le_trans hbc hab⟩
  have hsorted : (specs.insertionSort
      (fun a b => colonCount b ≤ colonCount a)).Pairwise
      (fun a b => colonCount b ≤ colonCount a) :=
    List.sorted_insertionSort _ _
  have hperm := List.perm_insertionSort
    (fun a b => colonCount b ≤ colonCount a) specs
  have key := setSpecsLoop_mem_iff
    (specs.insertionSort (fun a b => colonCount b ≤ colonCount a)) [] []
    (by simpa using hsorted) (by simp) (by simp) s
  unfold set_specs
  rw [key]
  constructor
  · rintro ⟨hs, hno⟩
    refine ⟨hperm.mem_iff.mp hs, ?_⟩
    intro t ht
    exact hno t (Or.inr (hperm.mem_iff.mpr ht))
  · rintro ⟨hs, hno⟩
    refine ⟨hperm.mem_iff.mpr hs, ?_⟩
    intro t ht
    rcases ht with ht | ht
    · exact absurd ht (List.not_mem_nil t)
    · exact hno t (hperm.mem_iff.mp ht)

/-- **C5.**  `Record.set_specs` returns exactly those specs of sets
linked to the record's item that are not proper colon-prefix ancestors of
another linked spec; consequently no returned spec is a proper ancestor
of another returned spec (a minimal antichain). -/
theorem record_set_specs_minimal_antichain :
    ∀ (st : Store) (ident : Str),
      (∀ s, s ∈ Record.set_specs st ident ↔
        (s ∈ linkedSpecs st ident ∧
          ∀ t ∈ linkedSpecs st ident, s ∉ ancestors t)) ∧
      (∀ s t, s ∈ Record.set_specs st ident →
        t ∈ Record.set_specs st ident → s ∉ ancestors t) := by
  intro st ident
  refine ⟨fun s => set_specs_mem_iff _ s, ?_⟩
  intro s t hs ht
  have h1 := (set_specs_mem_iff (linkedSpecs st ident) s).mp hs
  have h2 := (set_specs_mem_iff (linkedSpecs st ident) t).mp ht
  exact h1.2 t h2.1

/-- Witness for C5: at `exSpecsStore`, `a:b:c` is kept (nothing linked
has it as a proper ancestor), and the kept specs `a:x` and `a:b:c` are
unrelated. -/
theorem record_set_specs_minimal_antichain_witness :
    (ofStr "a:b:c" ∈ Record.set_specs exSpecsStore (ofStr "item1")) ∧
    (ofStr "a:x" ∉ ancestors (ofStr "a:b:c")) :=
  ⟨((record_set_specs_minimal_antichain exSpecsStore
      (ofStr "item1")).1 (ofStr "a:b:c")).mpr ⟨by decide, by decide⟩,
   (record_set_specs_minimal_antichain exSpecsStore (ofStr "item1")).2
     (ofStr "a:x") (ofStr "a:b:c") (by decide) (by decide)⟩

/-- `daysInMonth` never exceeds 31. -/
theorem daysInMonth_le (y m : Nat) : daysInMonth y m ≤ 31 := by
  unfold daysInMonth
  split
  · split <;> omega
  · split <;> omega

/-- Digit characters decode to their value. -/
theorem charDigit?_digitChar {n : Nat} (h : n ≤ 9) :
    charDigit? (digitChar n) = some n := by
  interval_cases n <;> rfl

/-- Decoded digits come from digit characters. -/
theorem charDigit?_eq_some {c : Char} {n : Nat} (h : charDigit? c = some n) :
    c = digitChar n ∧ n ≤ 9 := by
  unfold charDigit? at h
  split at h <;> cases h <;> exact ⟨rfl, by omega⟩

/-- Two-digit encoding round trip (`n ≤ 99`). -/
theorem digits2?_pad2 {n : Nat} (h : n ≤ 99) :
    digits2? (some (digitChar (n / 10 % 10))) (some (digitChar (n % 10))) =
      some n := by
  have h1 : n / 10 % 10 ≤ 9 := by omega
  have h2 : n % 10 ≤ 9 := by omega
  simp only [digits2?, charDigit?_digitChar h1, charDigit?_digitChar h2,
    Option.some.injEq]
  omega

/-- Four-digit encoding round trip (`n ≤ 9999`). -/
theorem digits4?_pad4 {n : Nat} (h : n ≤ 9999) :
    digits4? (some (digitChar (n / 1000 % 10)))
      (some (digitChar (n / 100 % 10))) (some (digitChar (n / 10 % 10)))
      (some (digitChar (n % 10))) = some n := by
  have h1 : n / 1000 % 10 ≤ 9 := by omega
  have h2 : n / 100 % 10 ≤ 9 := by omega
  have h3 : n / 10 % 10 ≤ 9 := by omega
  have h4 : n % 10 ≤ 9 := by omega
  simp only [digits4?, digits2?, charDigit?_digitChar h1,
    charDigit?_digitChar h2, charDigit?_digitChar h3,
    charDigit?_digitChar h4, Option.some.injEq]
  omega

/-- A successful two-digit decode inverts to digit characters. -/
theorem digits2?_eq_some {a b : Option Char} {n : Nat}
    (h : digits2? a b = some n) :
    ∃ x y, a = some (digitChar x) ∧ b = some (digitChar y) ∧
      n = 10 * x + y ∧ x ≤ 9 ∧ y ≤ 9 := by
  unfold digits2? at h
  split at h
  · split at h
    · rename_i x y hx hy
      obtain ⟨ha', hxle⟩ := charDigit?_eq_some hx
      obtain ⟨hb', hyle⟩ := charDigit?_eq_some hy
      injection h with h
      refine ⟨x, y, ?_, ?_, h.symm, hxle, hyle⟩
      · rw [ha']
      · rw [hb']
    · cases h
  · cases h

/-- A successful four-digit decode inverts to digit characters. -/
theorem digits4?_eq_some {a b c d : Option Char} {n : Nat}
    (h : digits4? a b c d = some n) :
    ∃ x0 x1 x2 x3, a = some (digitChar x0) ∧ b = some (digitChar x1) ∧
      c = some (digitChar x2) ∧ d = some (digitChar x3) ∧
      n = 1000 * x0 + 100 * x1 + 10 * x2 + x3 ∧
      x0 ≤ 9 ∧ x1 ≤ 9 ∧ x2 ≤ 9 ∧ x3 ≤ 9 := by
  unfold digits4? at h
  split at h
  · rename_i hi lo hhi hlo
    obtain ⟨x0, x1, ha, hb, hhi', hx0, hx1⟩ := digits2?_eq_some hhi
    obtain ⟨x2, x3, hc, hd, hlo', hx2, hx3⟩ := digits2?_eq_some hlo
    injection h with h
    exact ⟨x0, x1, x2, x3, ha, hb, hc, hd, by omega, hx0, hx1, hx2, hx3⟩
  · cases h

/-- `renderWith` as a flat character list. -/
theorem renderWith_eq (d : DateTime) (tc zc : Char) :
    renderWith d tc zc =
      [digitChar (d.year / 1000 % 10), digitChar (d.year / 100 % 10),
       digitChar (d.year / 10 % 10), digitChar (d.year % 10), '-',
       digitChar (d.month / 10 % 10), digitChar (d.month % 10), '-',
       digitChar (d.day / 10 % 10), digitChar (d.day % 10), tc,
       digitChar (d.hour / 10 % 10), digitChar (d.hour % 10), ':',
       digitChar (d.minute / 10 % 10), digitChar (d.minute % 10), ':',
       digitChar (d.second / 10 % 10), digitChar (d.second % 10), zc] := by
  simp [renderWith, pad4, pad2]

/-- `format_day` as a flat character list. -/
theorem format_day_eq (y mo dy : Nat) :
    format_day y mo dy =
      [digitChar (y / 1000 % 10), digitChar (y / 100 % 10),
       digitChar (y / 10 % 10), digitChar (y % 10), '-',
       digitChar (mo / 10 % 10), digitChar (mo % 10), '-',
       digitChar (dy / 10 % 10), digitChar (dy % 10)] := by
  simp [format_day, pad4, pad2]

/-- `parseSecondShape` on a list with the separators in place (the two
letter positions in either case) reduces to field decoding plus range
validation. -/
theorem parseSecondShape_cons
    (c0 c1 c2 c3 c5 c6 c8 c9 c11 c12 c14 c15 c17 c18 tc zc : Char)
    (htc : tc = 'T' ∨ tc = 't') (hzc : zc = 'Z' ∨ zc = 'z') :
    parseSecondShape
      [c0, c1, c2, c3, '-', c5, c6, '-', c8, c9, tc, c11, c12, ':',
       c14, c15, ':', c17, c18, zc] =
      (match digits4? (some c0) (some c1) (some c2) (some c3),
             digits2? (some c5) (some c6), digits2? (some c8) (some c9),
             digits2? (some c11) (some c12), digits2? (some c14) (some c15),
             digits2? (some c17) (some c18) with
       | some y, some mo, some dy, some h, some mi, some s =>
         if 1 ≤ y ∧ 1 ≤ mo ∧ mo ≤ 12 ∧ 1 ≤ dy ∧ dy ≤ daysInMonth y mo ∧
            h ≤ 23 ∧ mi ≤ 59 ∧ s ≤ 59 then
           .ok (⟨y, mo, dy, h, mi, s⟩, .second)
         else .error "field out of range"
       | _, _, _, _, _, _ => .error "time data does not match format") := by
  unfold parseSecondShape
  rw [if_pos]
  · rfl
  · refine ⟨rfl, rfl, ?_, rfl, rfl, ?_⟩
    · exact htc.imp (fun h => by rw [h]; rfl) (fun h => by rw [h]; rfl)
    · exact hzc.imp (fun h => by rw [h]; rfl) (fun h => by rw [h]; rfl)

/-- `parseDayShape` on a list with the separators in place. -/
theorem parseDayShape_cons (c0 c1 c2 c3 c5 c6 c8 c9 : Char) (t : Time) :
    parseDayShape [c0, c1, c2, c3, '-', c5, c6, '-', c8, c9] t =
      (match digits4? (some c0) (some c1) (some c2) (some c3),
             digits2? (some c5) (some c6), digits2? (some c8) (some c9) with
       | some y, some mo, some dy =>
         if 1 ≤ y ∧ 1 ≤ mo ∧ mo ≤ 12 ∧ 1 ≤ dy ∧ dy ≤ daysInMonth y mo then
           .ok (⟨y, mo, dy, t.hour, t.minute, t.second⟩, .day)
         else .error "field out of range"
       | _, _, _ => .error "time data does not match format") := by
  rfl

/-- Rendering a representable datetime with the letter positions in
either case and parsing it back returns the datetime with second
granularity, whatever the default time. -/
theorem parse_renderWith (d : DateTime) (tc zc : Char) (t : Time)
    (h : d.valid) (htc : tc = 'T' ∨ tc = 't')
    (hzc : zc = 'Z' ∨ zc = 'z') :
    parse_date (renderWith d tc zc) t = .ok (d, .second) := by
  obtain ⟨h1, h2, h3, h4, h5, h6, h7, h8, h9⟩ := h
  have hday : d.day ≤ 31 := le_trans h6 (daysInMonth_le _ _)
  have hcond : 1 ≤ d.year ∧ 1 ≤ d.month ∧ d.month ≤ 12 ∧ 1 ≤ d.day ∧
      d.day ≤ daysInMonth d.year d.month ∧ d.hour ≤ 23 ∧ d.minute ≤ 59 ∧
      d.second ≤ 59 := ⟨h1, h3, h4, h5, h6, h7, h8, h9⟩
  rw [show parse_date (renderWith d tc zc) t =
        parseSecondShape (renderWith d tc zc) from rfl,
    renderWith_eq,
    parseSecondShape_cons _ _ _ _ _ _ _ _ _ _ _ _ _ _ _ _ htc hzc,
    digits4?_pad4 h2,
    digits2?_pad2 (show d.month ≤ 99 by omega),
    digits2?_pad2 (show d.day ≤ 99 by omega),
    digits2?_pad2 (show d.hour ≤ 99 by omega),
    digits2?_pad2 (show d.minute ≤ 99 by omega),
    digits2?_pad2 (show d.second ≤ 99 by omega)]
  simp [hcond]

/-- Emitting a representable date in `YYYY-MM-DD` form and parsing it
back returns it at day granularity with the caller's default time. -/
theorem parse_format_day (y mo dy : Nat) (t : Time)
    (hb : 1 ≤ y ∧ y ≤ 9999 ∧ 1 ≤ mo ∧ mo ≤ 12 ∧ 1 ≤ dy ∧
      dy ≤ daysInMonth y mo) :
    parse_date (format_day y mo dy) t =
      .ok (⟨y, mo, dy, t.hour, t.minute, t.second⟩, .day) := by
  obtain ⟨h1, h2, h3, h4, h5, h6⟩ := hb
  have hday : dy ≤ 31 := le_trans h6 (daysInMonth_le _ _)
  have hcond : 1 ≤ y ∧ 1 ≤ mo ∧ mo ≤ 12 ∧ 1 ≤ dy ∧
      dy ≤ daysInMonth y mo := ⟨h1, h3, h4, h5, h6⟩
  rw [show parse_date (format_day y mo dy) t =
        parseDayShape (format_day y mo dy) t from rfl,
    format_day_eq, parseDayShape_cons,
    digits4?_pad4 h2,
    digits2?_pad2 (show mo ≤ 99 by omega),
    digits2?_pad2 (show dy ≤ 99 by omega)]
  simp [hcond]

/-- Peel one element off a list of known positive length. -/
theorem list_len_succ {α : Type} {l : List α} {n : Nat}
    (h : l.length = n + 1) : ∃ a t, l = a :: t ∧ t.length = n := by
  cases l with
  | nil => simp at h
  | cons a t => exact ⟨a, t, rfl, by simpa using h⟩

/-- `parse_date` accepts exactly the two OAI-PMH datestamp shapes:
`YYYY-MM-DDTHH:MM:SSZ` and `YYYY-MM-DD` (with in-range fields), and
rejects every other input with an error. -/
theorem parse_date_ok_iff (cs : Str) (t : Time) :
    (∃ r, parse_date cs t = .ok r) ↔ SecondShape cs ∨ DayShape cs := by
  constructor
  · rintro ⟨r, hr⟩
    by_cases h20 : cs.length = 20
    · left
      have hps : parseSecondShape cs = .ok r := by
        unfold parse_date at hr
        rw [if_pos h20] at hr
        exact hr
      clear hr
      obtain ⟨c0, t0, rfl, hl0⟩ := list_len_succ (show cs.length = 19 + 1 by omega)
      obtain ⟨c1, t1, rfl, hl1⟩ := list_len_succ (show t0.length = 18 + 1 by omega)
      obtain ⟨c2, t2, rfl, hl2⟩ := list_len_succ (show t1.length = 17 + 1 by omega)
      obtain ⟨c3, t3, rfl, hl3⟩ := list_len_succ (show t2.length = 16 + 1 by omega)
      obtain ⟨c4, t4, rfl, hl4⟩ := list_len_succ (show t3.length = 15 + 1 by omega)
      obtain ⟨c5, t5, rfl, hl5⟩ := list_len_succ (show t4.length = 14 + 1 by omega)
      obtain ⟨c6, t6, rfl, hl6⟩ := list_len_succ (show t5.length = 13 + 1 by omega)
      obtain ⟨c7, t7, rfl, hl7⟩ := list_len_succ (show t6.length = 12 + 1 by omega)
      obtain ⟨c8, t8, rfl, hl8⟩ := list_len_succ (show t7.length = 11 + 1 by omega)
      obtain ⟨c9, t9, rfl, hl9⟩ := list_len_succ (show t8.length = 10 + 1 by omega)
      obtain ⟨c10, t10, rfl, hl10⟩ := list_len_succ (show t9.length = 9 + 1 by omega)
      obtain ⟨c11, t11, rfl, hl11⟩ := list_len_succ (show t10.length = 8 + 1 by omega)
      obtain ⟨c12, t12, rfl, hl12⟩ := list_len_succ (show t11.length = 7 + 1 by omega)
      obtain ⟨c13, t13, rfl, hl13⟩ := list_len_succ (show t12.length = 6 + 1 by omega)
      obtain ⟨c14, t14, rfl, hl14⟩ := list_len_succ (show t13.length = 5 + 1 by omega)
      obtain ⟨c15, t15, rfl, hl15⟩ := list_len_succ (show t14.length = 4 + 1 by omega)
      obtain ⟨c16, t16, rfl, hl16⟩ := list_len_succ (show t15.length = 3 + 1 by omega)
      obtain ⟨c17, t17, rfl, hl17⟩ := list_len_succ (show t16.length = 2 + 1 by omega)
      obtain ⟨c18, t18, rfl, hl18⟩ := list_len_succ (show t17.length = 1 + 1 by omega)
      obtain ⟨c19, t19, rfl, hl19⟩ := list_len_succ (show t18.length = 0 + 1 by omega)
      have ht19 : t19 = [] := List.eq_nil_of_length_eq_zero hl19
      subst ht19
      unfold parseSecondShape at hps
      split at hps
      · rename_i hsep
        have e4 : c4 = '-' := Option.some.inj hsep.1
        have e7 : c7 = '-' := Option.some.inj hsep.2.1
        have e10 : c10 = 'T' ∨ c10 = 't' :=
          hsep.2.2.1.imp Option.some.inj Option.some.inj
        have e13 : c13 = ':' := Option.some.inj hsep.2.2.2.1
        have e16 : c16 = ':' := Option.some.inj hsep.2.2.2.2.1
        have e19 : c19 = 'Z' ∨ c19 = 'z' :=
          hsep.2.2.2.2.2.imp Option.some.inj Option.some.inj
        subst e4 e7 e13 e16
        split at hps
        · rename_i y mo dy hh mi ss hy hmo hdy hhh hmi hss
          obtain ⟨x0, x1, x2, x3, ha0, ha1, ha2, ha3, hyv, hx0, hx1, hx2, hx3⟩ :=
            digits4?_eq_some hy
          obtain ⟨m0, m1, hb0, hb1, hmov, hm0, hm1⟩ := digits2?_eq_some hmo
          obtain ⟨d0, d1, hc0, hc1, hdyv, hd0, hd1⟩ := digits2?_eq_some hdy
          obtain ⟨e0, e1, hd0', hd1', hhhv, he0, he1⟩ := digits2?_eq_some hhh
          obtain ⟨f0, f1, he0', he1', hmiv, hf0, hf1⟩ := digits2?_eq_some hmi
          obtain ⟨g0, g1, hf0', hf1', hssv, hg0, hg1⟩ := digits2?_eq_some hss
          have ec0 : c0 = digitChar x0 := Option.some.inj ha0
          have ec1 : c1 = digitChar x1 := Option.some.inj ha1
          have ec2 : c2 = digitChar x2 := Option.some.inj ha2
          have ec3 : c3 = digitChar x3 := Option.some.inj ha3
          have ec5 : c5 = digitChar m0 := Option.some.inj hb0
          have ec6 : c6 = digitChar m1 := Option.some.inj hb1
          have ec8 : c8 = digitChar d0 := Option.some.inj hc0
          have ec9 : c9 = digitChar d1 := Option.some.inj hc1
          have ec11 : c11 = digitChar e0 := Option.some.inj hd0'
          have ec12 : c12 = digitChar e1 := Option.some.inj hd1'
          have ec14 : c14 = digitChar f0 := Option.some.inj he0'
          have ec15 : c15 = digitChar f1 := Option.some.inj he1'
          have ec17 : c17 = digitChar g0 := Option.some.inj hf0'
          have ec18 : c18 = digitChar g1 := Option.some.inj hf1'
          subst ec0 ec1 ec2 ec3 ec5 ec6 ec8 ec9 ec11 ec12 ec14 ec15 ec17 ec18
          split at hps
          · rename_i hcond
            refine ⟨⟨y, mo, dy, hh, mi, ss⟩, c10, c19, ?_, e10, e19, ?_⟩
            · obtain ⟨k1, k2, k3, k4, k5, k6, k7, k8⟩ := hcond
              exact ⟨k1, show y ≤ 9999 by omega, k2, k3, k4, k5, k6, k7, k8⟩
            · rw [renderWith_eq]
              have ex0 : x0 = y / 1000 % 10 := by omega
              have ex1 : x1 = y / 100 % 10 := by omega
              have ex2 : x2 = y / 10 % 10 := by omega
              have ex3 : x3 = y % 10 := by omega
              have em0 : m0 = mo / 10 % 10 := by omega
              have em1 : m1 = mo % 10 := by omega
              have ed0 : d0 = dy / 10 % 10 := by omega
              have ed1 : d1 = dy % 10 := by omega
              have ee0 : e0 = hh / 10 % 10 := by omega
              have ee1 : e1 = hh % 10 := by omega
              have ef0 : f0 = mi / 10 % 10 := by omega
              have ef1 : f1 = mi % 10 := by omega
              have eg0 : g0 = ss / 10 % 10 := by omega
              have eg1 : g1 = ss % 10 := by omega
              rw [ex0, ex1, ex2, ex3, em0, em1, ed0, ed1, ee0, ee1, ef0,
                ef1, eg0, eg1]
          · cases hps
        · cases hps
      · cases hps
    · by_cases h10 : cs.length = 10
      · right
        have hpd : parseDayShape cs t = .ok r := by
          unfold parse_date at hr
          rw [if_neg h20, if_pos h10] at hr
          exact hr
        clear hr
        obtain ⟨c0, t0, rfl, hl0⟩ := list_len_succ (show cs.length = 9 + 1 by omega)
        obtain ⟨c1, t1, rfl, hl1⟩ := list_len_succ (show t0.length = 8 + 1 by omega)
        obtain ⟨c2, t2, rfl, hl2⟩ := list_len_succ (show t1.length = 7 + 1 by omega)
        obtain ⟨c3, t3, rfl, hl3⟩ := list_len_succ (show t2.length = 6 + 1 by omega)
        obtain ⟨c4, t4, rfl, hl4⟩ := list_len_succ (show t3.length = 5 + 1 by omega)
        obtain ⟨c5, t5, rfl, hl5⟩ := list_len_succ (show t4.length = 4 + 1 by omega)
        obtain ⟨c6, t6, rfl, hl6⟩ := list_len_succ (show t5.length = 3 + 1 by omega)
        obtain ⟨c7, t7, rfl, hl7⟩ := list_len_succ (show t6.length = 2 + 1 by omega)
        obtain ⟨c8, t8, rfl, hl8⟩ := list_len_succ (show t7.length = 1 + 1 by omega)
        obtain ⟨c9, t9, rfl, hl9⟩ := list_len_succ (show t8.length = 0 + 1 by omega)
        have ht9 : t9 = [] := List.eq_nil_of_length_eq_zero hl9
        subst ht9
        unfold parseDayShape at hpd
        split at hpd
        · rename_i hsep
          have e4 : c4 = '-' := Option.some.inj hsep.1
          have e7 : c7 = '-' := Option.some.inj hsep.2
          subst e4 e7
          split at hpd
          · rename_i y mo dy hy hmo hdy
            obtain ⟨x0, x1, x2, x3, ha0, ha1, ha2, ha3, hyv, hx0, hx1, hx2, hx3⟩ :=
              digits4?_eq_some hy
            obtain ⟨m0, m1, hb0, hb1, hmov, hm0, hm1⟩ := digits2?_eq_some hmo
            obtain ⟨d0, d1, hc0, hc1, hdyv, hd0, hd1⟩ := digits2?_eq_some hdy
            have ec0 : c0 = digitChar x0 := Option.some.inj ha0
            have ec1 : c1 = digitChar x1 := Option.some.inj ha1
            have ec2 : c2 = digitChar x2 := Option.some.inj ha2
            have ec3 : c3 = digitChar x3 := Option.some.inj ha3
            have ec5 : c5 = digitChar m0 := Option.some.inj hb0
            have ec6 : c6 = digitChar m1 := Option.some.inj hb1
            have ec8 : c8 = digitChar d0 := Option.some.inj hc0
            have ec9 : c9 = digitChar d1 := Option.some.inj hc1
            subst ec0 ec1 ec2 ec3 ec5 ec6 ec8 ec9
            split at hpd
            · rename_i hcond
              obtain ⟨k1, k2, k3, k4, k5⟩ := hcond
              refine ⟨y, mo, dy, ⟨k1, by omega, k2, k3, k4, k5⟩, ?_⟩
              rw [format_day_eq]
              have ex0 : x0 = y / 1000 % 10 := by omega
              have ex1 : x1 = y / 100 % 10 := by omega
              have ex2 : x2 = y / 10 % 10 := by omega
              have ex3 : x3 = y % 10 := by omega
              have em0 : m0 = mo / 10 % 10 := by omega
              have em1 : m1 = mo % 10 := by omega
              have ed0 : d0 = dy / 10 % 10 := by omega
              have ed1 : d1 = dy % 10 := by omega
              rw [ex0, ex1, ex2, ex3, em0, em1, ed0, ed1]
            · cases hpd
          · cases hpd
        · cases hpd
      · exfalso
        unfold parse_date at hr
        rw [if_neg h20, if_neg h10] at hr
        cases hr
  · rintro (⟨d, tc, zc, hv, htc, hzc, rfl⟩ | ⟨y, mo, dy, hb, rfl⟩)
    · exact ⟨(d, .second), parse_renderWith d tc zc t hv htc hzc⟩
    · exact ⟨(⟨y, mo, dy, t.hour, t.minute, t.second⟩, .day),
        parse_format_day y mo dy t hb⟩

/-- The emitter always writes an uppercase `T` at index 10. -/
theorem renderDatestamp_T (d : DateTime) :
    (renderDatestamp d)[10]? = some 'T' := by
  rw [show renderDatestamp d = renderWith d 'T' 'Z' from rfl, renderWith_eq]
  rfl

/-- Counterexample to C6 as frozen: the valid second-precision datetime
1899-12-31T23:59:59 is not emitted at all — Python 2.7's
`datetime.strftime` raises `ValueError` for years before 1900 — and
`parse_date` accepts `"2020-01-01t00:00:00z"`, an input with lowercase
letters that is not the `YYYY-MM-DDTHH:MM:SSZ` rendering of any
datetime, instead of rejecting it with an error. -/
theorem date_codec_cex :
    DateTime.valid ⟨1899, 12, 31, 23, 59, 59⟩ ∧
    format_datestamp ⟨1899, 12, 31, 23, 59, 59⟩ =
      .error "the datetime strftime() methods require year >= 1900" ∧
    (∀ d : DateTime, ofStr "2020-01-01t00:00:00z" ≠ renderDatestamp d) ∧
    parse_date (ofStr "2020-01-01t00:00:00z") ⟨0, 0, 0⟩ =
      .ok (⟨2020, 1, 1, 0, 0, 0⟩, .second) := by
  refine ⟨by decide, rfl, ?_, by rfl⟩
  intro d h
  have h10 : (ofStr "2020-01-01t00:00:00z")[10]? =
      (renderDatestamp d)[10]? := by rw [h]
  rw [renderDatestamp_T] at h10
  exact absurd h10 (by decide)

/-- **C6**, amended: for a representable datetime whose year is at least
1900, `format_datestamp` emits the `YYYY-MM-DDTHH:MM:SSZ` rendering and
`parse_date` returns the same datetime at second granularity; for a year
below 1900 `format_datestamp` raises `ValueError` (Python 2.7
`strftime`); and `parse_date` accepts exactly the two shapes
`YYYY-MM-DD` and `YYYY-MM-DDTHH:MM:SSZ` — the letters `T` and `Z` in
either case, since `strptime` matches them case-insensitively —
rejecting every other input with an error. -/
theorem date_codec_amended :
    (∀ (d : DateTime) (t : Time), d.valid → 1900 ≤ d.year →
      format_datestamp d = .ok (renderDatestamp d) ∧
      parse_date (renderDatestamp d) t = .ok (d, .second)) ∧
    (∀ d : DateTime, d.year < 1900 →
      format_datestamp d =
        .error "the datetime strftime() methods require year >= 1900") ∧
    (∀ (cs : Str) (t : Time),
      (∃ r, parse_date cs t = .ok r) ↔ SecondShape cs ∨ DayShape cs) := by
  refine ⟨fun d t hv hy => ⟨?_, ?_⟩, fun d hy => ?_,
    fun cs t => parse_date_ok_iff cs t⟩
  · unfold format_datestamp
    rw [if_neg (by omega)]
  · exact parse_renderWith d 'T' 'Z' t hv (Or.inl rfl) (Or.inl rfl)
  · unfold format_datestamp
    rw [if_pos hy]

/-- Witness for the amended C6 at the leap-day datetime
2020-02-29T23:59:59Z, at the year 1899, and at the lowercase input
`2020-01-01t00:00:00z`. -/
theorem date_codec_amended_witness :
    (format_datestamp ⟨2020, 2, 29, 23, 59, 59⟩ =
       .ok (renderDatestamp ⟨2020, 2, 29, 23, 59, 59⟩) ∧
     parse_date (renderDatestamp ⟨2020, 2, 29, 23, 59, 59⟩) ⟨0, 0, 0⟩ =
       .ok (⟨2020, 2, 29, 23, 59, 59⟩, .second)) ∧
    format_datestamp ⟨1899, 1, 1, 0, 0, 0⟩ =
      .error "the datetime strftime() methods require year >= 1900" ∧
    (∃ r, parse_date (ofStr "2020-01-01t00:00:00z") ⟨0, 0, 0⟩ = .ok r) :=
  ⟨date_codec_amended.1 ⟨2020, 2, 29, 23, 59, 59⟩ ⟨0, 0, 0⟩ (by decide)
     (by decide),
   date_codec_amended.2.1 ⟨1899, 1, 1, 0, 0, 0⟩ (by decide),
   (date_codec_amended.2.2 (ofStr "2020-01-01t00:00:00z") ⟨0, 0, 0⟩).mpr
     (Or.inl ⟨⟨2020, 1, 1, 0, 0, 0⟩, 't', 'z', by decide, Or.inr rfl,
       Or.inr rfl, by rfl⟩)⟩

end Kuha
